import Mathlib

/-!
Verification of the Airtable proxy edge functions of this repository.

Two source variants are embedded:
* namespace `QP` — `src/functions/api/airtable.js`, the query-parameter
  variant (resource path arrives in the `path` query parameter).
* namespace `PS` — `src/unnamed/part_000`, the path-segment variant
  (resource path arrives in the URL pathname).

JavaScript strings are modelled as `List Char` (all inputs of interest are
ASCII), machine timestamps as `Int` (JS `Date.now()` values are integral
millisecond counts), and the process-wide rate-limit `Map` as an association
list with JS `Map.get`/`Map.set` semantics.  Fallible JS operations
(`decodeURIComponent`, `JSON.parse`) are modelled with `Option`; an uncaught
JS exception escaping a function is modelled with an explicit constructor.
-/

/-- JavaScript strings, modelled as lists of characters. -/
abbrev Str := List Char

/-- Split a string on a separator character.  Mirrors JS `String.split(c)`:
the result is never empty, and `"".split(c) = [""]`. -/
def splitOnChar (sep : Char) : Str → List Str
  | [] => [[]]
  | c :: cs =>
    if c = sep then [] :: splitOnChar sep cs
    else
      match splitOnChar sep cs with
      | [] => [[c]]
      | g :: gs => (c :: g) :: gs

/-- Split a string at the first occurrence of `sep`: returns the part before
and, when `sep` occurs, the part after it. -/
def splitFirst (sep : Char) : Str → Str × Option Str
  | [] => ([], none)
  | c :: cs =>
    if c = sep then ([], some cs)
    else
      let (pre, post) := splitFirst sep cs
      (c :: pre, post)

/-- Remove the first occurrence of `pat` from `s` (JS
`s.replace(pat, '')` with a string pattern replaces the leftmost match). -/
def replaceFirst (pat : Str) : Str → Str
  | [] => []
  | c :: cs =>
    if pat.isPrefixOf (c :: cs) then (c :: cs).drop pat.length
    else c :: replaceFirst pat cs

/-- Value of a hexadecimal digit, if the character is one (JS percent
escapes accept both cases). -/
def hexVal (c : Char) : Option Nat :=
  if '0' ≤ c ∧ c ≤ '9' then some (c.toNat - '0'.toNat)
  else if 'a' ≤ c ∧ c ≤ 'f' then some (c.toNat - 'a'.toNat + 10)
  else if 'A' ≤ c ∧ c ≤ 'F' then some (c.toNat - 'A'.toNat + 10)
  else none

/-- Byte value of a two-hex-digit escape. -/
def hex2 (h1 h2 : Char) : Option Nat := do
  let a ← hexVal h1
  let b ← hexVal h2
  pure (16 * a + b)

/-- Is `b` a UTF-8 continuation byte? -/
def utf8Cont (b : Nat) : Bool := 0x80 ≤ b ∧ b ≤ 0xBF

/-- `decodeURIComponent`: strict percent-decoding.  A `%` must be followed
by two hex digits; bytes ≥ 0x80 must form a valid (shortest-form,
non-surrogate) UTF-8 sequence whose continuation bytes are themselves
percent-escaped, exactly as in the ECMAScript `Decode` algorithm.  `none`
models a thrown `URIError`.  (Supplementary-plane code points become one
`Char` here rather than a JS surrogate pair; all comparisons performed by
the embedded code are on ASCII strings, where the two models agree.) -/
def decodeURIComponent : Str → Option Str
  | [] => some []
  | '%' :: h1 :: h2 :: rest =>
    match hex2 h1 h2 with
    | none => none
    | some b =>
      if b ≤ 0x7F then
        (decodeURIComponent rest).map (Char.ofNat b :: ·)
      else if 0xC2 ≤ b ∧ b ≤ 0xDF then
        match rest with
        | '%' :: g1 :: g2 :: r2 =>
          match hex2 g1 g2 with
          | some b2 =>
            if utf8Cont b2 then
              (decodeURIComponent r2).map
                (Char.ofNat ((b - 0xC0) * 0x40 + (b2 - 0x80)) :: ·)
            else none
          | none => none
        | _ => none
      else if 0xE0 ≤ b ∧ b ≤ 0xEF then
        match rest with
        | '%' :: g1 :: g2 :: '%' :: g3 :: g4 :: r2 =>
          match hex2 g1 g2, hex2 g3 g4 with
          | some b2, some b3 =>
            if utf8Cont b2 ∧ utf8Cont b3 then
              let cp := (b - 0xE0) * 0x1000 + (b2 - 0x80) * 0x40 + (b3 - 0x80)
              if 0x800 ≤ cp ∧ (cp < 0xD800 ∨ 0xDFFF < cp) then
                (decodeURIComponent r2).map (Char.ofNat cp :: ·)
              else none
            else none
          | _, _ => none
        | _ => none
      else if 0xF0 ≤ b ∧ b ≤ 0xF4 then
        match rest with
        | '%' :: g1 :: g2 :: '%' :: g3 :: g4 :: '%' :: g5 :: g6 :: r2 =>
          match hex2 g1 g2, hex2 g3 g4, hex2 g5 g6 with
          | some b2, some b3, some b4 =>
            if utf8Cont b2 ∧ utf8Cont b3 ∧ utf8Cont b4 then
              let cp := (b - 0xF0) * 0x40000 + (b2 - 0x80) * 0x1000 +
                        (b3 - 0x80) * 0x40 + (b4 - 0x80)
              if 0x10000 ≤ cp ∧ cp ≤ 0x10FFFF then
                (decodeURIComponent r2).map (Char.ofNat cp :: ·)
              else none
            else none
          | _, _, _ => none
        | _ => none
      else none
  | '%' :: _ :: [] => none
  | '%' :: [] => none
  | c :: cs => (decodeURIComponent cs).map (c :: ·)

/-- The Unicode replacement character, produced by lenient form decoding on
invalid byte sequences. -/
def replChar : Char := Char.ofNat 0xFFFD

/-- Worker for `pdecodeLenient`; the fuel argument strictly exceeds the
number of decoding steps (each step consumes at least one character), so the
out-of-fuel branch is unreachable when called with the input's length as
fuel. -/
def pdecodeLenientGo : Nat → Str → Str
  | 0, s => s
  | _ + 1, [] => []
  | n + 1, '%' :: h1 :: h2 :: rest =>
    match hex2 h1 h2 with
    | none => '%' :: h1 :: h2 :: pdecodeLenientGo n rest
    | some b =>
      if b ≤ 0x7F then Char.ofNat b :: pdecodeLenientGo n rest
      else if 0xC2 ≤ b ∧ b ≤ 0xDF then
        match rest with
        | '%' :: g1 :: g2 :: r2 =>
          match hex2 g1 g2 with
          | some b2 =>
            if utf8Cont b2 then
              Char.ofNat ((b - 0xC0) * 0x40 + (b2 - 0x80)) :: pdecodeLenientGo n r2
            else replChar :: pdecodeLenientGo n rest
          | none => replChar :: pdecodeLenientGo n rest
        | _ => replChar :: pdecodeLenientGo n rest
      else if 0xE0 ≤ b ∧ b ≤ 0xEF then
        match rest with
        | '%' :: g1 :: g2 :: '%' :: g3 :: g4 :: r2 =>
          match hex2 g1 g2, hex2 g3 g4 with
          | some b2, some b3 =>
            if utf8Cont b2 ∧ utf8Cont b3 then
              let cp := (b - 0xE0) * 0x1000 + (b2 - 0x80) * 0x40 + (b3 - 0x80)
              if 0x800 ≤ cp ∧ (cp < 0xD800 ∨ 0xDFFF < cp) then
                Char.ofNat cp :: pdecodeLenientGo n r2
              else replChar :: pdecodeLenientGo n rest
            else replChar :: pdecodeLenientGo n rest
          | _, _ => replChar :: pdecodeLenientGo n rest
        | _ => replChar :: pdecodeLenientGo n rest
      else if 0xF0 ≤ b ∧ b ≤ 0xF4 then
        match rest with
        | '%' :: g1 :: g2 :: '%' :: g3 :: g4 :: '%' :: g5 :: g6 :: r2 =>
          match hex2 g1 g2, hex2 g3 g4, hex2 g5 g6 with
          | some b2, some b3, some b4 =>
            if utf8Cont b2 ∧ utf8Cont b3 ∧ utf8Cont b4 then
              let cp := (b - 0xF0) * 0x40000 + (b2 - 0x80) * 0x1000 +
                        (b3 - 0x80) * 0x40 + (b4 - 0x80)
              if 0x10000 ≤ cp ∧ cp ≤ 0x10FFFF then
                Char.ofNat cp :: pdecodeLenientGo n r2
              else replChar :: pdecodeLenientGo n rest
            else replChar :: pdecodeLenientGo n rest
          | _, _, _ => replChar :: pdecodeLenientGo n rest
        | _ => replChar :: pdecodeLenientGo n rest
      else replChar :: pdecodeLenientGo n rest
  | _ + 1, '%' :: h1 :: [] => ['%', h1]
  | _ + 1, '%' :: [] => ['%']
  | n + 1, c :: cs => c :: pdecodeLenientGo n cs

/-- Lenient percent-decoding as performed by `URLSearchParams` on names and
values: a `%` not followed by two hex digits stays literal, and an invalid
UTF-8 byte sequence yields U+FFFD for its leading escape and decoding
continues (an approximation of WHATWG maximal-subpart replacement that
agrees with it on ASCII input). -/
def pdecodeLenient (s : Str) : Str := pdecodeLenientGo s.length s

/-- Form decoding of a query name or value: `+` becomes a space, then
lenient percent-decoding (`application/x-www-form-urlencoded`). -/
def formDecode (s : Str) : Str :=
  pdecodeLenient (s.map (fun c => if c = '+' then ' ' else c))

/-- Parse a query string (without its leading question mark) into an
ordered list of name/value pairs, as `URLSearchParams` does: split on
ampersands, drop empty segments, split each segment at its first equals
sign, and form-decode names and values. -/
def parseQuery (q : Str) : List (Str × Str) :=
  ((splitOnChar '&' q).filter (· ≠ [])).map fun seg =>
    let (n, v) := splitFirst '=' seg
    (formDecode n, formDecode (v.getD []))

/-- First value bound to `name`, as `URLSearchParams.get`. -/
def spGet (ps : List (Str × Str)) (name : Str) : Option Str :=
  match ps.find? (fun p => p.1 = name) with
  | some p => some p.2
  | none => none

/-- `URLSearchParams.set`: overwrite the first entry carrying the name and
drop any later duplicates, or append when the name is absent. -/
def spset : List (Str × Str) → Str → Str → List (Str × Str)
  | [], k, v => [(k, v)]
  | (k0, v0) :: rest, k, v =>
    if k0 = k then (k0, v) :: rest.filter (fun p => ¬ p.1 = k)
    else (k0, v0) :: spset rest k v

/-- JS object-literal update semantics: a later key assignment overwrites
the value in place, otherwise the pair is appended. -/
def oset : List (Str × Str) → Str → Str → List (Str × Str)
  | [], k, v => [(k, v)]
  | (k0, v0) :: rest, k, v =>
    if k0 = k then (k0, v) :: rest
    else (k0, v0) :: oset rest k v

/-- JS object spread `{...base, ...add}`: fold the additions over the base
with overwrite semantics. -/
def omerge (base add : List (Str × Str)) : List (Str × Str) :=
  add.foldl (fun m kv => oset m kv.1 kv.2) base

/-- Header lookup by exact name. -/
def hget (hs : List (Str × Str)) (k : Str) : Option Str :=
  match hs.find? (fun p => p.1 = k) with
  | some p => some p.2
  | none => none

/-- Decimal digits of a natural number. -/
def natStr (n : Nat) : Str := Nat.toDigits 10 n

/-- Decimal rendering of an integer, as JS number-to-string on integral
values. -/
def intStr (i : Int) : Str :=
  if i < 0 then '-' :: natStr i.natAbs else natStr i.natAbs

/-- `Math.ceil (a / b)` on integers for positive `b`, total. -/
def jsCeilDiv (a b : Int) : Int := -((-a).fdiv b)

/-- JS whitespace trimming (`String.trim`), restricted to the ASCII
whitespace characters that can occur in a header value. -/
def trimWs (s : Str) : Str :=
  let ws : Char → Bool := fun c =>
    c = ' ' ∨ c = '\t' ∨ c = '\n' ∨ c = '\r' ∨ c = Char.ofNat 0x0B ∨ c = Char.ofNat 0x0C
  ((s.dropWhile ws).reverse.dropWhile ws).reverse

/-! ### JSON values and `JSON.parse`

`part_000` calls `request.json()` and `airtableResponse.json()`; both parse
a text body with JSON grammar.  Numbers keep their source lexeme (the
embedded code never computes with them), JSON strings become `Str` (a lone
surrogate escape, which a JS string can hold but a Lean `Char` cannot,
becomes U+FFFD; every comparison made by the embedded code is on ASCII). -/

/-- JSON values. -/
inductive Json where
  | null
  | bool (b : Bool)
  | num (lexeme : Str)
  | str (s : Str)
  | arr (elems : List Json)
  | obj (members : List (Str × Json))

/-- JSON whitespace (space, tab, line feed, carriage return). -/
def jsonWs (c : Char) : Bool :=
  c = ' ' ∨ c = '\t' ∨ c = '\n' ∨ c = '\r'

/-- Drop leading JSON whitespace. -/
def skipWs (s : Str) : Str := s.dropWhile jsonWs

/-- The double-quote character. -/
def quoteChar : Char := Char.ofNat 34

/-- The backslash character. -/
def bslashChar : Char := Char.ofNat 92

/-- The left brace character. -/
def lbraceChar : Char := Char.ofNat 123

/-- The right brace character. -/
def rbraceChar : Char := Char.ofNat 125

/-- Decimal digit test. -/
def isDigitCh (c : Char) : Bool := '0' ≤ c ∧ c ≤ '9'

/-- Parse the body of a JSON string after its opening quote, with fuel;
returns the decoded content and the input following the closing quote.
Escapes are the JSON ones; raw control characters are rejected; a `\u`
escape yields its code unit, pairing surrogates (a lone surrogate becomes
U+FFFD, see the section comment). -/
def jsonStrGo : Nat → Str → Option (Str × Str)
  | 0, _ => none
  | _ + 1, [] => none
  | n + 1, c :: cs =>
    if c = quoteChar then some ([], cs)
    else if c = bslashChar then
      match cs with
      | [] => none
      | e :: cs2 =>
        if e = quoteChar then (jsonStrGo n cs2).map (fun p => (quoteChar :: p.1, p.2))
        else if e = bslashChar then (jsonStrGo n cs2).map (fun p => (bslashChar :: p.1, p.2))
        else if e = '/' then (jsonStrGo n cs2).map (fun p => ('/' :: p.1, p.2))
        else if e = 'b' then (jsonStrGo n cs2).map (fun p => (Char.ofNat 8 :: p.1, p.2))
        else if e = 'f' then (jsonStrGo n cs2).map (fun p => (Char.ofNat 12 :: p.1, p.2))
        else if e = 'n' then (jsonStrGo n cs2).map (fun p => ('\n' :: p.1, p.2))
        else if e = 'r' then (jsonStrGo n cs2).map (fun p => ('\r' :: p.1, p.2))
        else if e = 't' then (jsonStrGo n cs2).map (fun p => ('\t' :: p.1, p.2))
        else if e = 'u' then
          match cs2 with
          | h1 :: h2 :: h3 :: h4 :: cs3 =>
            match hexVal h1, hexVal h2, hexVal h3, hexVal h4 with
            | some a, some b, some c3, some d =>
              let cu := ((a * 16 + b) * 16 + c3) * 16 + d
              if 0xD800 ≤ cu ∧ cu ≤ 0xDBFF then
                match cs3 with
                | e2 :: u2 :: k1 :: k2 :: k3 :: k4 :: cs4 =>
                  match hexVal k1, hexVal k2, hexVal k3, hexVal k4 with
                  | some a2, some b2, some c2, some d2 =>
                    let cu2 := ((a2 * 16 + b2) * 16 + c2) * 16 + d2
                    if e2 = bslashChar ∧ u2 = 'u' ∧ 0xDC00 ≤ cu2 ∧ cu2 ≤ 0xDFFF then
                      let cp := 0x10000 + (cu - 0xD800) * 0x400 + (cu2 - 0xDC00)
                      (jsonStrGo n cs4).map (fun p => (Char.ofNat cp :: p.1, p.2))
                    else (jsonStrGo n cs3).map (fun p => (replChar :: p.1, p.2))
                  | _, _, _, _ => (jsonStrGo n cs3).map (fun p => (replChar :: p.1, p.2))
                | _ => (jsonStrGo n cs3).map (fun p => (replChar :: p.1, p.2))
              else if 0xDC00 ≤ cu ∧ cu ≤ 0xDFFF then
                (jsonStrGo n cs3).map (fun p => (replChar :: p.1, p.2))
              else (jsonStrGo n cs3).map (fun p => (Char.ofNat cu :: p.1, p.2))
            | _, _, _, _ => none
          | _ => none
        else none
    else if c.toNat < 0x20 then none
    else (jsonStrGo n cs).map (fun p => (c :: p.1, p.2))

/-- Parse a JSON number starting at `s`; returns its lexeme and the rest.
Grammar: optional minus, `0` or a nonzero-led digit run, optional fraction,
optional exponent. -/
def jsonNum (s : Str) : Option (Str × Str) :=
  let (neg, s1) : Str × Str :=
    match s with
    | '-' :: r => (['-'], r)
    | _ => ([], s)
  match s1 with
  | [] => none
  | c :: cs =>
    if ¬ isDigitCh c then none
    else
      let (ipart, s2) : Str × Str :=
        if c = '0' then (['0'], cs)
        else (c :: cs.takeWhile isDigitCh, cs.dropWhile isDigitCh)
      let (fpart, s3) : Option Str × Str :=
        match s2 with
        | '.' :: r =>
          let ds := r.takeWhile isDigitCh
          if ds = [] then (none, s2) else (some ('.' :: ds), r.dropWhile isDigitCh)
        | _ => (some [], s2)
      match fpart with
      | none => none
      | some fp =>
        let (epart, s4) : Option Str × Str :=
          match s3 with
          | e :: r =>
            if e = 'e' ∨ e = 'E' then
              let (sgn, r2) : Str × Str :=
                match r with
                | '+' :: rr => (['+'], rr)
                | '-' :: rr => (['-'], rr)
                | _ => ([], r)
              let ds := r2.takeWhile isDigitCh
              if ds = [] then (none, s3) else (some (e :: sgn ++ ds), r2.dropWhile isDigitCh)
            else (some [], s3)
          | [] => (some [], s3)
        match epart with
        | none => none
        | some ep => some (neg ++ ipart ++ fp ++ ep, s4)

mutual

/-- Parse one JSON value (after skipping leading whitespace), with fuel. -/
def jsonVal : Nat → Str → Option (Json × Str)
  | 0, _ => none
  | n + 1, s =>
    let s := skipWs s
    match s with
    | [] => none
    | c :: cs =>
      if c = quoteChar then (jsonStrGo cs.length cs).map (fun p => (.str p.1, p.2))
      else if c = lbraceChar then
        let s1 := skipWs cs
        match s1 with
        | [] => none
        | d :: ds =>
          if d = rbraceChar then some (.obj [], ds)
          else (jsonMembers n s1).map (fun p => (.obj p.1, p.2))
      else if c = '[' then
        let s1 := skipWs cs
        match s1 with
        | [] => none
        | d :: ds =>
          if d = ']' then some (.arr [], ds)
          else (jsonElems n s1).map (fun p => (.arr p.1, p.2))
      else if ("null".toList).isPrefixOf s then some (.null, s.drop 4)
      else if ("true".toList).isPrefixOf s then some (.bool true, s.drop 4)
      else if ("false".toList).isPrefixOf s then some (.bool false, s.drop 5)
      else (jsonNum s).map (fun p => (.num p.1, p.2))

/-- Parse the comma-separated elements of a JSON array up to the closing
bracket. -/
def jsonElems : Nat → Str → Option (List Json × Str)
  | 0, _ => none
  | n + 1, s => do
    let (v, r) ← jsonVal n s
    match skipWs r with
    | ',' :: r2 => (jsonElems n r2).map (fun p => (v :: p.1, p.2))
    | ']' :: r2 => some ([v], r2)
    | _ => none

/-- Parse the comma-separated members of a JSON object up to the closing
brace. -/
def jsonMembers : Nat → Str → Option (List (Str × Json) × Str)
  | 0, _ => none
  | n + 1, s =>
    match skipWs s with
    | [] => none
    | c :: cs =>
      if c = quoteChar then do
        let (k, r) ← jsonStrGo cs.length cs
        match skipWs r with
        | ':' :: r2 => do
          let (v, r3) ← jsonVal n r2
          match skipWs r3 with
          | ',' :: r4 => (jsonMembers n r4).map (fun p => ((k, v) :: p.1, p.2))
          | d :: r4 =>
            if d = rbraceChar then some ([(k, v)], r4) else none
          | [] => none
        | _ => none
      else none

end

/-- `JSON.parse`, returning `none` where JS throws a `SyntaxError`.  The
fuel (two steps can precede each consumed character) strictly bounds the
recursion depth of a parse of `s`. -/
def jsonParse (s : Str) : Option Json :=
  match jsonVal (2 * s.length + 2) s with
  | some (v, rest) => if skipWs rest = [] then some v else none
  | none => none

/-! ### HTTP-level data -/

/-- Response bodies, kept structural: `errObj m` stands for the byte string
`JSON.stringify({error: m})`, `errObjDetails m d` for
`JSON.stringify({error: m, details: d})`, `errObjReset m t` for
`JSON.stringify({error: m, resetAt: t})`, `jsonOf j` for
`JSON.stringify(j)`, and `text s` for the verbatim text `s`. -/
inductive Body where
  | text (s : Str)
  | jsonOf (j : Json)
  | errObj (msg : Str)
  | errObjDetails (msg details : Str)
  | errObjReset (msg : Str) (resetAt : Int)

/-- An outgoing HTTP response. -/
structure Response where
  status : Nat
  headers : List (Str × Str)
  body : Option Body

/-- The inbound request, restricted to what the two handlers read: method,
the `Origin`, `CF-Connecting-IP` and `X-Forwarded-For` headers (`none` when
absent), the URL's pathname and raw search string (empty or starting with a
question mark), and the request body text (`none` when reading it fails /
there is none). -/
structure Request where
  method : Str
  origin : Option Str
  cfip : Option Str
  xff : Option Str
  pathname : Str
  search : Str
  bodyText : Option Str

/-- An upstream (Airtable) HTTP response, as observed by the handler. -/
structure Upstream where
  status : Nat
  body : Str

/-- Outcome of the outbound `fetch`: a transport failure carrying the
rejection's `error.message`, or an upstream response. -/
abbrev FetchRes := Except Str Upstream

/-- `Map.get` on an association list (insertion-ordered, unique keys). -/
def mget {α : Type} (m : List (Str × α)) (k : Str) : Option α :=
  (m.find? (fun p => p.1 = k)).map (fun p => p.2)

/-- `Map.set`: update the existing entry in place or append a new one. -/
def mset {α : Type} : List (Str × α) → Str → α → List (Str × α)
  | [], k, v => [(k, v)]
  | (k0, v0) :: rest, k, v =>
    if k0 = k then (k0, v) :: rest else (k0, v0) :: mset rest k v

/-- The `Content-Type` header name. -/
def hContentType : Str := "Content-Type".toList

/-- The JSON content type. -/
def vAppJson : Str := "application/json".toList

/-- The `Retry-After` header name. -/
def hRetryAfter : Str := "Retry-After".toList

/-- The `X-RateLimit-Limit` header name. -/
def hXRLLimit : Str := "X-RateLimit-Limit".toList

/-- The `X-RateLimit-Remaining` header name. -/
def hXRLRemaining : Str := "X-RateLimit-Remaining".toList

/-- The `X-RateLimit-Reset` header name. -/
def hXRLReset : Str := "X-RateLimit-Reset".toList

/-! ### Variant QP — `src/functions/api/airtable.js` (query-parameter form) -/

namespace QP

/-- `ALLOWED_ORIGINS` of `airtable.js`, in source order. -/
def ALLOWED_ORIGINS : List Str :=
  ["https://prioai.ca".toList,
   "https://www.prioai.ca".toList,
   "https://dashboard.prioai.ca".toList,
   "http://localhost:3000".toList,
   "http://localhost:8788".toList,
   "http://127.0.0.1:3000".toList,
   "http://127.0.0.1:8788".toList]

/-- `ALLOWED_BASE`. -/
def ALLOWED_BASE : Str := "applOjDjhH0RqLtBH".toList

/-- `ALLOWED_TABLES`: tables in both URL-encoded and decoded spellings plus
three raw table ids. -/
def ALLOWED_TABLES : List Str :=
  ["Admin%20Settings".toList,
   "Admin Settings".toList,
   "Team%20Members".toList,
   "Team Members".toList,
   "tblMptC862PyL7Znw".toList,
   "tblvB5OpG0b5mVix3".toList,
   "tblLpN4wceakfNFpq".toList]

/-- `RATE_LIMIT`: requests per window. -/
def RATE_LIMIT : Nat := 1000

/-- `RATE_WINDOW`: one minute in milliseconds. -/
def RATE_WINDOW : Int := 60 * 1000

/-- A rate-limit record `{ windowStart, count }`. -/
structure Rec where
  windowStart : Int
  count : Nat
deriving DecidableEq

/-- The in-memory `rateLimitMap`. -/
abbrev RateState := List (Str × Rec)

/-- `checkRateLimit(ip)` at time `now`: returns the admission flag and the
map after the call. -/
def checkRateLimit (st : RateState) (ip : Str) (now : Int) : Bool × RateState :=
  match mget st ip with
  | none => (true, mset st ip ⟨now, 1⟩)
  | some r =>
    if now - r.windowStart > RATE_WINDOW then (true, mset st ip ⟨now, 1⟩)
    else if r.count ≥ RATE_LIMIT then (false, st)
    else (true, mset st ip ⟨r.windowStart, r.count + 1⟩)

/-- `getCorsHeaders(origin)`: always emits an `Access-Control-Allow-Origin`,
falling back to the first allowed origin. -/
def getCorsHeaders (origin : Str) : List (Str × Str) :=
  let allowedOrigin := if origin ∈ ALLOWED_ORIGINS then origin else "https://prioai.ca".toList
  [("Access-Control-Allow-Origin".toList, allowedOrigin),
   ("Access-Control-Allow-Methods".toList, "GET, POST, PATCH, DELETE, OPTIONS".toList),
   ("Access-Control-Allow-Headers".toList, "Content-Type".toList),
   ("Access-Control-Max-Age".toList, "86400".toList)]

/-- Result of `validatePath`: a structured `{valid: ...}` return, or
`thrown` when the body of the function raises (the `decodeURIComponent`
call throws a `URIError` on a malformed escape and `validatePath` does not
catch it). -/
inductive VResult where
  | okValid
  | err (msg : Str)
  | thrown
deriving DecidableEq

/-- The table segment the source derives from a path:
`path.replace(ALLOWED_BASE + '/', '').split('/')[0]`. -/
def tableOf (p : Str) : Str :=
  (splitOnChar '/' (replaceFirst (ALLOWED_BASE ++ ['/']) p)).headI

/-- `validatePath(path)`, with `none` for a missing (`null`) parameter.  An
empty string is falsy in JS, so it also takes the missing-path branch. -/
def validatePath : Option Str → VResult
  | none => .err ("Missing path parameter".toList)
  | some p =>
    if p = [] then .err ("Missing path parameter".toList)
    else if ¬ ALLOWED_BASE.isPrefixOf p then .err ("Invalid base ID".toList)
    else
      let table := tableOf p
      if table = [] then .err ("Missing table name".toList)
      else
        match decodeURIComponent table with
        | none => .thrown
        | some decodedTable =>
          if table ∈ ALLOWED_TABLES ∨ decodedTable ∈ ALLOWED_TABLES then .okValid
          else .err ("Table not allowed".toList)

/-- The `allowedParams` forwarding allow-list. -/
def allowedParams : List Str :=
  ["pageSize".toList, "offset".toList, "sort[0][field]".toList,
   "sort[0][direction]".toList, "filterByFormula".toList, "view".toList]

/-- Does the source's forwarding condition admit an inbound parameter name?
(`key !== 'path' && (allowedParams.includes(key) || key.startsWith('sort['))`) -/
def forwardName (k : Str) : Bool :=
  k ≠ ("path".toList) ∧ (k ∈ allowedParams ∨ ("sort[".toList).isPrefixOf k)

/-- One step of the query-forwarding loop
`for (const [key, value] of url.searchParams) if (...) airtableUrl.searchParams.set(key, value)`. -/
def forwardStep (ps : List (Str × Str)) (kv : Str × Str) : List (Str × Str) :=
  if forwardName kv.1 then spset ps kv.1 kv.2 else ps

/-- The fixed upstream URL prefix. -/
def apiBase : Str := "https://api.airtable.com/v0/".toList

/-- The `new URL(...)` split of a URL string into its pre-query part and
its query (the fragment, after a hash, belongs to neither). -/
def urlSplit (s : Str) : Str × Option Str :=
  splitFirst '?' (splitFirst '#' s).1

/-- The query parameters a URL string starts with before any
`searchParams.set` call. -/
def upstreamInitParams (rawUrl : Str) : List (Str × Str) :=
  parseQuery ((urlSplit rawUrl).2.getD [])

/-- What the handler hands to `fetch`: the URL string given to the `URL`
constructor, its parsed pre-query part, the final query parameters, and the
forwarded method and body. -/
structure Outbound where
  rawUrl : Str
  pathPart : Str
  params : List (Str × Str)
  method : Str
  body : Option Str

/-- Handler outcome: a response (with the upstream call it made, if any),
or an uncaught exception escaping `onRequest`. -/
inductive HOut where
  | thrown
  | resp (r : Response) (ob : Option Outbound)

/-- The upstream call recorded in a handler outcome, if one was made. -/
def outbOf : HOut → Option Outbound
  | .thrown => none
  | .resp _ ob => ob

/-- The response of a handler outcome, if it returned one. -/
def respOf : HOut → Option Response
  | .thrown => none
  | .resp r _ => some r

/-- The query string of the request URL without its leading question
mark. -/
def searchQuery (req : Request) : Str :=
  match req.search with
  | [] => []
  | c :: cs => if c = '?' then cs else c :: cs

/-- `url.searchParams` of the inbound request. -/
def searchParamsOf (req : Request) : List (Str × Str) :=
  parseQuery (searchQuery req)

/-- The rate-limit key: `CF-Connecting-IP`, else the first comma-separated
entry of `X-Forwarded-For`, else `'unknown'` (JS `||` chains skip empty
strings). -/
def clientIP (req : Request) : Str :=
  let fb : Str :=
    match req.xff with
    | some x =>
      let h := (splitOnChar ',' x).headI
      if h = [] then "unknown".toList else h
    | none => "unknown".toList
  match req.cfip with
  | some s => if s = [] then fb else s
  | none => fb

/-- `onRequest` of `airtable.js` as a function of the request, the
`AIRTABLE_TOKEN` environment value, the rate-limit map, the current time
and the fetch outcome.  Returns the outcome and the rate-limit map after
the call. -/
def onRequest (req : Request) (token : Option Str) (st : RateState) (now : Int)
    (fr : FetchRes) : HOut × RateState :=
  let origin := req.origin.getD []
  let corsHeaders := getCorsHeaders origin
  if req.method = ("OPTIONS".toList) then
    (.resp ⟨204, corsHeaders, none⟩ none, st)
  else if req.method ≠ ("GET".toList) ∧ origin ∉ ALLOWED_ORIGINS then
    (.resp ⟨403, omerge corsHeaders [(hContentType, vAppJson)],
      some (.errObj ("Origin not allowed".toList))⟩ none, st)
  else
    let rl := checkRateLimit st (clientIP req) now
    if rl.1 then
      match token with
      | none =>
        (.resp ⟨500, omerge corsHeaders [(hContentType, vAppJson)],
          some (.errObj ("Server configuration error".toList))⟩ none, rl.2)
      | some _tok =>
        let pathOpt := spGet (searchParamsOf req) ("path".toList)
        match validatePath pathOpt with
        | .thrown => (.thrown, rl.2)
        | .err msg =>
          (.resp ⟨400, omerge corsHeaders [(hContentType, vAppJson)],
            some (.errObj msg)⟩ none, rl.2)
        | .okValid =>
          match pathOpt with
          | none => (.thrown, rl.2)  -- dead: validatePath rejects a missing path
          | some p =>
            let rawUrl := apiBase ++ p
            let split := urlSplit rawUrl
            let params := (searchParamsOf req).foldl forwardStep
              (parseQuery (split.2.getD []))
            let fbody : Option Str :=
              if req.method ∈ [("POST".toList), ("PATCH".toList), ("PUT".toList)] then
                match req.bodyText with
                | some b => if b = [] then none else some b
                | none => none
              else none
            let outb : Outbound := ⟨rawUrl, split.1, params, req.method, fbody⟩
            match fr with
            | .error _ =>
              (.resp ⟨502, omerge corsHeaders [(hContentType, vAppJson)],
                some (.errObj ("Failed to fetch from Airtable".toList))⟩ (some outb), rl.2)
            | .ok u =>
              (.resp ⟨u.status, omerge corsHeaders [(hContentType, vAppJson)],
                some (.text u.body)⟩ (some outb), rl.2)
    else
      (.resp ⟨429, omerge corsHeaders [(hContentType, vAppJson), (hRetryAfter, "60".toList)],
        some (.errObj ("Rate limit exceeded. Max 1000 requests per minute.".toList))⟩ none, rl.2)

end QP

/-! ### Variant PS — `src/unnamed/part_000` (path-segment form) -/

namespace PS

/-- `ALLOWED_PATHS.bases`. -/
def ALLOWED_BASES : List Str := ["appXXXXXXXXXXXXXX".toList]

/-- `ALLOWED_PATHS.tables`. -/
def ALLOWED_TABLES : List Str :=
  ["Clients".toList, "Calls".toList, "Leads".toList,
   "Costs".toList, "Revenue".toList, "Settings".toList]

/-- `ALLOWED_ORIGINS` of `part_000`, in source order. -/
def ALLOWED_ORIGINS : List Str :=
  ["https://prioai.ca".toList,
   "https://dashboard.prioai.ca".toList,
   "https://www.prioai.ca".toList,
   "http://localhost:3000".toList,
   "http://localhost:8788".toList,
   "http://127.0.0.1:3000".toList,
   "http://127.0.0.1:8788".toList]

/-- `RATE_LIMIT`: requests per window. -/
def RATE_LIMIT : Nat := 1000

/-- `RATE_WINDOW`: one minute in milliseconds. -/
def RATE_WINDOW : Int := 60000

/-- A rate-limit record `{ count, timestamp }`. -/
structure Rec where
  count : Nat
  timestamp : Int
deriving DecidableEq

/-- The in-memory `rateLimitStore`. -/
abbrev RateState := List (Str × Rec)

/-- The structured result of `checkRateLimit`: `resetAt` is only present on
rejection. -/
structure RLRes where
  allowed : Bool
  remaining : Int
  resetAt : Option Int
deriving DecidableEq

/-- `checkRateLimit(ip)` at time `now`: returns the structured result and
the store after the call. -/
def checkRateLimit (st : RateState) (ip : Str) (now : Int) : RLRes × RateState :=
  match mget st ip with
  | none => (⟨true, (RATE_LIMIT : Int) - 1, none⟩, mset st ip ⟨1, now⟩)
  | some r =>
    if now - r.timestamp > RATE_WINDOW then
      (⟨true, (RATE_LIMIT : Int) - 1, none⟩, mset st ip ⟨1, now⟩)
    else if r.count ≥ RATE_LIMIT then
      (⟨false, 0, some (r.timestamp + RATE_WINDOW)⟩, st)
    else
      (⟨true, (RATE_LIMIT : Int) - (r.count + 1 : Nat), none⟩,
       mset st ip ⟨r.count + 1, r.timestamp⟩)

/-- `getRateLimitKey(request)`: `CF-Connecting-IP`, else the first
comma-separated entry of `X-Forwarded-For` trimmed, else `'unknown'`. -/
def getRateLimitKey (req : Request) : Str :=
  let fb : Str :=
    match req.xff with
    | some x =>
      let h := trimWs ((splitOnChar ',' x).headI)
      if h = [] then "unknown".toList else h
    | none => "unknown".toList
  match req.cfip with
  | some s => if s = [] then fb else s
  | none => fb

/-- `getCorsHeaders(request)`: strict mode — the origin header (and
`Allow-Credentials`) is emitted only for an allow-listed `Origin`. -/
def getCorsHeaders (req : Request) : List (Str × Str) :=
  let base : List (Str × Str) :=
    [("Access-Control-Allow-Methods".toList, "GET, POST, PATCH, DELETE, OPTIONS".toList),
     ("Access-Control-Allow-Headers".toList, "Content-Type, Authorization, X-Requested-With".toList),
     ("Access-Control-Max-Age".toList, "86400".toList)]
  match req.origin with
  | some o =>
    if o ≠ [] ∧ o ∈ ALLOWED_ORIGINS then
      base ++ [("Access-Control-Allow-Origin".toList, o),
               ("Access-Control-Allow-Credentials".toList, "true".toList)]
    else base
  | none => base

/-- Result of this variant's `validatePath`. -/
inductive PValid where
  | invalid (msg : Str)
  | ok (baseId tableName : Str) (recordId : Option Str)
deriving DecidableEq

/-- `validatePath(path)`: split on slashes dropping empty segments, require
two or three segments, check base and table against the allow-lists. -/
def validatePath (path : Str) : PValid :=
  let parts := (splitOnChar '/' path).filter (· ≠ [])
  if parts.length < 2 ∨ parts.length > 3 then .invalid ("Invalid path format".toList)
  else
    let baseId := parts.headI
    let tableName := (parts.drop 1).headI
    if baseId ∉ ALLOWED_BASES then .invalid ("Base not allowed".toList)
    else if tableName ∉ ALLOWED_TABLES then .invalid ("Table not allowed".toList)
    else .ok baseId tableName (parts.drop 2).head?

/-- Uppercase hexadecimal digit. -/
def hexDigitUp (n : Nat) : Char :=
  if n < 10 then Char.ofNat ('0'.toNat + n) else Char.ofNat ('A'.toNat + n - 10)

/-- Percent-escape of one byte, uppercase. -/
def pctByte (b : Nat) : Str := ['%', hexDigitUp (b / 16), hexDigitUp (b % 16)]

/-- UTF-8 bytes of a code point. -/
def utf8Bytes (c : Char) : List Nat :=
  let n := c.toNat
  if n ≤ 0x7F then [n]
  else if n ≤ 0x7FF then [0xC0 + n / 0x40, 0x80 + n % 0x40]
  else if n ≤ 0xFFFF then
    [0xE0 + n / 0x1000, 0x80 + (n / 0x40) % 0x40, 0x80 + n % 0x40]
  else
    [0xF0 + n / 0x40000, 0x80 + (n / 0x1000) % 0x40, 0x80 + (n / 0x40) % 0x40,
     0x80 + n % 0x40]

/-- Characters `encodeURIComponent` leaves unescaped. -/
def uriUnreserved (c : Char) : Bool :=
  ('A' ≤ c ∧ c ≤ 'Z') ∨ ('a' ≤ c ∧ c ≤ 'z') ∨ ('0' ≤ c ∧ c ≤ '9') ∨
    c = '-' ∨ c = '_' ∨ c = '.' ∨ c = '!' ∨ c = '~' ∨ c = '*' ∨
    c = Char.ofNat 39 ∨ c = '(' ∨ c = ')'

/-- `encodeURIComponent`. -/
def encodeURIComponent (s : Str) : Str :=
  s.foldr
    (fun c acc =>
      if uriUnreserved c then c :: acc
      else ((utf8Bytes c).foldr (fun b a2 => pctByte b ++ a2) []) ++ acc)
    []

/-- The pathname pattern `/^\/api\/airtable\/(.+)$/`: the capture is the
non-empty remainder after the fixed prefix (a URL pathname contains no raw
line terminators, so the dot matches every remaining character). -/
def pathMatch (pathname : Str) : Option Str :=
  let pre := "/api/airtable/".toList
  if pre.isPrefixOf pathname then
    let rest := pathname.drop pre.length
    if rest = [] then none else some rest
  else none

/-- The fixed upstream URL prefix. -/
def apiV0 : Str := "https://api.airtable.com/v0/".toList

/-- Modelled runtime text of the `SyntaxError` message produced when
`airtableResponse.json()` rejects; the embedding fixes it to a constant
since its exact wording is engine-specific and nothing in the source
inspects it. -/
def JSON_PARSE_ERR_MSG : Str := "Unexpected token".toList

/-- What the handler hands to `fetch`: the URL string, the method, and the
parsed JSON body that is re-serialized into the outbound request body. -/
structure Outbound where
  url : Str
  method : Str
  body : Option Json

/-- `onRequest` of `part_000` as a function of the request, the
`AIRTABLE_TOKEN` environment value, the rate-limit store, the current time
and the fetch outcome.  Returns the response, the store after the call and
the upstream call made, if any. -/
def onRequest (req : Request) (token : Option Str) (st : RateState) (now : Int)
    (fr : FetchRes) : Response × RateState × Option Outbound :=
  let cors := getCorsHeaders req
  if req.method = ("OPTIONS".toList) then (⟨204, cors, none⟩, st, none)
  else
    match token with
    | none =>
      (⟨500, omerge [(hContentType, vAppJson)] cors,
        some (.errObj ("Server configuration error".toList))⟩, st, none)
    | some _tok =>
      let rl := checkRateLimit st (getRateLimitKey req) now
      if rl.1.allowed then
        match pathMatch req.pathname with
        | none =>
          (⟨400, omerge [(hContentType, vAppJson)] cors,
            some (.errObj ("Invalid endpoint".toList))⟩, rl.2, none)
        | some airtablePath =>
          match validatePath airtablePath with
          | .invalid msg =>
            (⟨403, omerge [(hContentType, vAppJson)] cors,
              some (.errObj msg)⟩, rl.2, none)
          | .ok baseId tableName recordId =>
            let url1 := apiV0 ++ baseId ++ ['/'] ++ encodeURIComponent tableName
            let url2 := match recordId with
              | some rid => url1 ++ ['/'] ++ rid
              | none => url1
            let urlStr := if req.search ≠ [] then url2 ++ req.search else url2
            let proceed : Option Json → Response × RateState × Option Outbound :=
              fun bodyJ =>
                let outb : Outbound := ⟨urlStr, req.method, bodyJ⟩
                match fr with
                | .error msg =>
                  (⟨502, omerge [(hContentType, vAppJson)] cors,
                    some (.errObjDetails ("Failed to fetch from Airtable".toList) msg)⟩,
                   rl.2, some outb)
                | .ok u =>
                  match jsonParse u.body with
                  | none =>
                    (⟨502, omerge [(hContentType, vAppJson)] cors,
                      some (.errObjDetails ("Failed to fetch from Airtable".toList)
                        JSON_PARSE_ERR_MSG)⟩, rl.2, some outb)
                  | some d =>
                    (⟨u.status,
                      omerge [(hContentType, vAppJson),
                              (hXRLLimit, natStr RATE_LIMIT),
                              (hXRLRemaining, intStr rl.1.remaining)] cors,
                      some (.jsonOf d)⟩, rl.2, some outb)
            if req.method ∈ [("POST".toList), ("PATCH".toList), ("PUT".toList)] then
              match req.bodyText with
              | none =>
                (⟨400, omerge [(hContentType, vAppJson)] cors,
                  some (.errObj ("Invalid JSON body".toList))⟩, rl.2, none)
              | some btxt =>
                match jsonParse btxt with
                | none =>
                  (⟨400, omerge [(hContentType, vAppJson)] cors,
                    some (.errObj ("Invalid JSON body".toList))⟩, rl.2, none)
                | some j => proceed (some j)
            else proceed none
      else
        let ra := rl.1.resetAt.getD 0
        (⟨429,
          omerge [(hContentType, vAppJson),
                  (hXRLLimit, natStr RATE_LIMIT),
                  (hXRLRemaining, "0".toList),
                  (hXRLReset, intStr ra),
                  (hRetryAfter, intStr (jsCeilDiv (ra - now) 1000))] cors,
          some (.errObjReset ("Rate limit exceeded".toList) ra)⟩, rl.2, none)

end PS

/-! ### Verification-side definitions and concrete fixtures -/

/-- The first slash-separated segment of a path (its base identifier). -/
def firstSeg (p : Str) : Str := p.takeWhile (fun c => c ≠ '/')

/-- Run a sequence of rate-limit checks for one client, returning the final
store and whether every request in the sequence was admitted. -/
def runSeq (st : PS.RateState) (ip : Str) (ts : List Int) : PS.RateState × Bool :=
  ts.foldl
    (fun acc t =>
      let r := PS.checkRateLimit acc.1 ip t
      (r.2, acc.2 && r.1.allowed))
    (st, true)

/-- The body step of the path-segment handler for mutating methods:
`none` when the handler answers 400 (no readable body / invalid JSON),
`some bj` when it proceeds with forwarded body `bj` (`some j` for a parsed
JSON body, `none` for a body-less method). -/
def bodyRoute (req : Request) : Option (Option Json) :=
  if req.method ∈ [("POST".toList), ("PATCH".toList), ("PUT".toList)] then
    match req.bodyText with
    | none => none
    | some btxt => (jsonParse btxt).map some
  else some none

/-- A preflight request from an arbitrary (disallowed) origin. -/
def reqOptions : Request :=
  ⟨"OPTIONS".toList, some ("https://evil.example".toList), none, none,
   "/api/airtable/zzz".toList, "?path=zzz".toList, none⟩

/-- A plain GET with a client IP and no path parameter. -/
def reqC2 : Request :=
  ⟨"GET".toList, none, some ("9.9.9.9".toList), none, [], [], none⟩

/-- A GET for `/api/airtable/appXXXXXXXXXXXXXX/Clients` (path-segment
variant). -/
def reqPSClients : Request :=
  ⟨"GET".toList, none, some ("9.9.9.9".toList), none,
   "/api/airtable/appXXXXXXXXXXXXXX/Clients".toList, [], none⟩

/-- A GET whose `path` parameter smuggles `?evil=1` inside its third
segment and which also carries an allowed `pageSize` and a disallowed
`evil` inbound parameter. -/
def reqSmuggle : Request :=
  ⟨"GET".toList, none, some ("1.2.3.4".toList), none, "/api/airtable".toList,
   "?path=applOjDjhH0RqLtBH%2FTeam%20Members%2Frec%3Fevil%3D1&pageSize=5&evil=1".toList,
   none⟩

/-- A GET whose `path` parameter is `applOjDjhH0RqLtBH/Team Members/rec1`. -/
def reqQPTeam : Request :=
  ⟨"GET".toList, none, some ("1.2.3.4".toList), none, "/api/airtable".toList,
   "?path=applOjDjhH0RqLtBH%2FTeam%20Members%2Frec1".toList, none⟩

/-- A path-segment-variant store in which client `9.9.9.9` has exhausted
its window that started at time 0. -/
def stFull : PS.RateState := [(("9.9.9.9".toList), ⟨1000, 0⟩)]

/-! ### Association-map lemmas -/

theorem mget_cons {α : Type} (k0 : Str) (v0 : α) (rest : List (Str × α)) (k : Str) :
    mget ((k0, v0) :: rest) k = if k0 = k then some v0 else mget rest k := by
  by_cases h : k0 = k <;> simp [mget, List.find?, h]

theorem mget_mset_self {α : Type} (m : List (Str × α)) (k : Str) (v : α) :
    mget (mset m k v) k = some v := by
  induction m with
  | nil => simp [mset, mget, List.find?]
  | cons p rest ih =>
    obtain ⟨k0, v0⟩ := p
    by_cases h : k0 = k
    · simp [mset, h, mget_cons]
    · simp [mset, h, mget_cons, ih]

theorem mset_mset {α : Type} (m : List (Str × α)) (k : Str) (v w : α) :
    mset (mset m k v) k w = mset m k w := by
  induction m with
  | nil => simp [mset]
  | cons p rest ih =>
    obtain ⟨k0, v0⟩ := p
    by_cases h : k0 = k
    · simp [mset, h]
    · simp [mset, h, ih]

theorem mset_self {α : Type} (m : List (Str × α)) (k : Str) (v : α)
    (h : mget m k = some v) : mset m k v = m := by
  induction m with
  | nil => simp [mget, List.find?] at h
  | cons p rest ih =>
    obtain ⟨k0, v0⟩ := p
    rw [mget_cons] at h
    by_cases hk : k0 = k
    · rw [if_pos hk] at h
      obtain rfl : v0 = v := by injection h
      simp [mset, hk]
    · rw [if_neg hk] at h
      simp [mset, hk, ih h]

/-! ### Header-object lemmas -/

theorem hget_cons (k0 v0 : Str) (rest : List (Str × Str)) (k : Str) :
    hget ((k0, v0) :: rest) k = if k0 = k then some v0 else hget rest k := by
  by_cases h : k0 = k <;> simp [hget, List.find?, h]

theorem hget_oset_same (m : List (Str × Str)) (k v : Str) :
    hget (oset m k v) k = some v := by
  induction m with
  | nil => simp [oset, hget, List.find?]
  | cons p rest ih =>
    obtain ⟨k0, v0⟩ := p
    by_cases h : k0 = k
    · simp [oset, h, hget_cons]
    · simp [oset, h, hget_cons, ih]

theorem hget_oset_ne (m : List (Str × Str)) (k v k' : Str) (h : k' ≠ k) :
    hget (oset m k v) k' = hget m k' := by
  have h' : ¬ (k = k') := fun hh => h hh.symm
  induction m with
  | nil => simp [oset, hget_cons, h', hget, List.find?]
  | cons p rest ih =>
    obtain ⟨k0, v0⟩ := p
    by_cases hk : k0 = k
    · subst hk
      simp [oset, hget_cons, h']
    · simp [oset, hk, hget_cons, ih]

theorem hget_omerge_skip (add : List (Str × Str)) (base : List (Str × Str)) (k : Str)
    (h : ∀ p ∈ add, p.1 ≠ k) : hget (omerge base add) k = hget base k := by
  induction add generalizing base with
  | nil => rfl
  | cons kv rest ih =>
    have h1 : kv.1 ≠ k := h kv (List.mem_cons_self kv rest)
    have h2 : ∀ p ∈ rest, p.1 ≠ k := fun p hp => h p (List.mem_cons_of_mem kv hp)
    calc hget (omerge base (kv :: rest)) k
        = hget (omerge (oset base kv.1 kv.2) rest) k := rfl
      _ = hget (oset base kv.1 kv.2) k := ih _ h2
      _ = hget base k := hget_oset_ne _ _ _ _ (fun hh => h1 hh.symm)

theorem hget_omerge_mem (add : List (Str × Str)) (base : List (Str × Str)) (k v : Str)
    (hnd : (add.map Prod.fst).Nodup) (hmem : (k, v) ∈ add) :
    hget (omerge base add) k = some v := by
  induction add generalizing base with
  | nil => cases hmem
  | cons kv rest ih =>
    rw [List.map_cons] at hnd
    rcases List.mem_cons.mp hmem with heq | hmem'
    · obtain rfl : kv = (k, v) := heq.symm
      have hnotin : ∀ p ∈ rest, p.1 ≠ k := by
        intro p hp hpk
        have hin : k ∈ rest.map Prod.fst := by
          rw [← hpk]; exact List.mem_map_of_mem Prod.fst hp
        exact (List.nodup_cons.mp hnd).1 hin
      calc hget (omerge base ((k, v) :: rest)) k
          = hget (omerge (oset base k v) rest) k := rfl
        _ = hget (oset base k v) k := hget_omerge_skip _ _ _ hnotin
        _ = some v := hget_oset_same _ _ _
    · exact ih _ (List.nodup_cons.mp hnd).2 hmem'

/-! ### Claim C3 — the fixed-window counter algorithm -/

/-- Case analysis of both `checkRateLimit` functions (shared helper; the
statement of claim C3 is `claim_C3` below, proved from this).  Both follow
the fixed-window counter algorithm — on a first request, or when `now - windowStart` exceeds the
window length (strictly, by even 1ms), the window resets to count 1 and the
request is admitted regardless of the prior count; otherwise a count at the
limit rejects without changing the store; otherwise the count increments and
the request is admitted, the path-segment variant reporting
`remaining = limit - count` for the post-increment count. -/
theorem checkRateLimit_cases (stP : PS.RateState) (stQ : QP.RateState) (ip : Str) (now : Int) :
    (mget stP ip = none →
      PS.checkRateLimit stP ip now =
        (⟨true, (PS.RATE_LIMIT : Int) - 1, none⟩, mset stP ip ⟨1, now⟩)) ∧
    (∀ r : PS.Rec, mget stP ip = some r → now - r.timestamp > PS.RATE_WINDOW →
      PS.checkRateLimit stP ip now =
        (⟨true, (PS.RATE_LIMIT : Int) - 1, none⟩, mset stP ip ⟨1, now⟩)) ∧
    (∀ r : PS.Rec, mget stP ip = some r → now - r.timestamp ≤ PS.RATE_WINDOW →
      r.count ≥ PS.RATE_LIMIT →
      PS.checkRateLimit stP ip now =
        (⟨false, 0, some (r.timestamp + PS.RATE_WINDOW)⟩, stP)) ∧
    (∀ r : PS.Rec, mget stP ip = some r → now - r.timestamp ≤ PS.RATE_WINDOW →
      r.count < PS.RATE_LIMIT →
      PS.checkRateLimit stP ip now =
        (⟨true, (PS.RATE_LIMIT : Int) - (r.count + 1 : Nat), none⟩,
         mset stP ip ⟨r.count + 1, r.timestamp⟩)) ∧
    (mget stQ ip = none →
      QP.checkRateLimit stQ ip now = (true, mset stQ ip ⟨now, 1⟩)) ∧
    (∀ r : QP.Rec, mget stQ ip = some r → now - r.windowStart > QP.RATE_WINDOW →
      QP.checkRateLimit stQ ip now = (true, mset stQ ip ⟨now, 1⟩)) ∧
    (∀ r : QP.Rec, mget stQ ip = some r → now - r.windowStart ≤ QP.RATE_WINDOW →
      r.count ≥ QP.RATE_LIMIT →
      QP.checkRateLimit stQ ip now = (false, stQ)) ∧
    (∀ r : QP.Rec, mget stQ ip = some r → now - r.windowStart ≤ QP.RATE_WINDOW →
      r.count < QP.RATE_LIMIT →
      QP.checkRateLimit stQ ip now = (true, mset stQ ip ⟨r.windowStart, r.count + 1⟩)) := by
  refine ⟨?_, ?_, ?_, ?_, ?_, ?_, ?_, ?_⟩
  · intro h
    simp [PS.checkRateLimit, h]
  · intro r h h2
    simp only [PS.checkRateLimit, h]
    rw [if_pos h2]
  · intro r h h2 h3
    simp only [PS.checkRateLimit, h]
    rw [if_neg (by omega), if_pos h3]
  · intro r h h2 h3
    simp only [PS.checkRateLimit, h]
    rw [if_neg (by omega), if_neg (by omega)]
  · intro h
    simp [QP.checkRateLimit, h]
  · intro r h h2
    simp only [QP.checkRateLimit, h]
    rw [if_pos h2]
  · intro r h h2 h3
    simp only [QP.checkRateLimit, h]
    rw [if_neg (by omega), if_pos h3]
  · intro r h h2 h3
    simp only [QP.checkRateLimit, h]
    rw [if_neg (by omega), if_neg (by omega)]

/-- Claim C3: both rate limiters implement exactly the fixed-window counter
algorithm — on a first request, or when `now - windowStart` exceeds the
window length (strictly, by even 1ms), the window resets to count 1 and the
request is admitted regardless of the prior count; otherwise a count at the
limit rejects without changing the store; otherwise the count increments and
the request is admitted, the path-segment variant reporting
`remaining = limit - count` for the post-increment count. -/
theorem claim_C3 (stP : PS.RateState) (stQ : QP.RateState) (ip : Str) (now : Int) :
    (mget stP ip = none →
      PS.checkRateLimit stP ip now =
        (⟨true, (PS.RATE_LIMIT : Int) - 1, none⟩, mset stP ip ⟨1, now⟩)) ∧
    (∀ r : PS.Rec, mget stP ip = some r → now - r.timestamp > PS.RATE_WINDOW →
      PS.checkRateLimit stP ip now =
        (⟨true, (PS.RATE_LIMIT : Int) - 1, none⟩, mset stP ip ⟨1, now⟩)) ∧
    (∀ r : PS.Rec, mget stP ip = some r → now - r.timestamp ≤ PS.RATE_WINDOW →
      r.count ≥ PS.RATE_LIMIT →
      PS.checkRateLimit stP ip now =
        (⟨false, 0, some (r.timestamp + PS.RATE_WINDOW)⟩, stP)) ∧
    (∀ r : PS.Rec, mget stP ip = some r → now - r.timestamp ≤ PS.RATE_WINDOW →
      r.count < PS.RATE_LIMIT →
      PS.checkRateLimit stP ip now =
        (⟨true, (PS.RATE_LIMIT : Int) - (r.count + 1 : Nat), none⟩,
         mset stP ip ⟨r.count + 1, r.timestamp⟩)) ∧
    (mget stQ ip = none →
      QP.checkRateLimit stQ ip now = (true, mset stQ ip ⟨now, 1⟩)) ∧
    (∀ r : QP.Rec, mget stQ ip = some r → now - r.windowStart > QP.RATE_WINDOW →
      QP.checkRateLimit stQ ip now = (true, mset stQ ip ⟨now, 1⟩)) ∧
    (∀ r : QP.Rec, mget stQ ip = some r → now - r.windowStart ≤ QP.RATE_WINDOW →
      r.count ≥ QP.RATE_LIMIT →
      QP.checkRateLimit stQ ip now = (false, stQ)) ∧
    (∀ r : QP.Rec, mget stQ ip = some r → now - r.windowStart ≤ QP.RATE_WINDOW →
      r.count < QP.RATE_LIMIT →
      QP.checkRateLimit stQ ip now = (true, mset stQ ip ⟨r.windowStart, r.count + 1⟩)) :=
  checkRateLimit_cases stP stQ ip now

/-- Witness for C3: a client at the limit, one millisecond into its window,
is rejected with `resetAt = windowStart + window`. -/
theorem claim_C3_witness :
    PS.checkRateLimit [(("a".toList), ⟨1000, 0⟩)] ("a".toList) 1 =
      (⟨false, 0, some 60000⟩, [(("a".toList), ⟨1000, 0⟩)]) := by
  have h := (claim_C3 [(("a".toList), ⟨1000, 0⟩)] [] ("a".toList) 1).2.2.1
    ⟨1000, 0⟩ (by decide) (by decide) (by decide)
  rw [h]
  decide

/-! ### Claim C6 — preflight short-circuit -/

/-- Claim C6: an `OPTIONS` request short-circuits both handlers — 204,
empty body, exactly the CORS headers, the rate-limit store untouched and no
upstream call — regardless of origin, path, token and store. -/
theorem claim_C6 (req : Request) (tokQ tokP : Option Str) (stQ : QP.RateState)
    (stP : PS.RateState) (now : Int) (frQ frP : FetchRes)
    (h : req.method = ("OPTIONS".toList)) :
    QP.onRequest req tokQ stQ now frQ =
      (.resp ⟨204, QP.getCorsHeaders (req.origin.getD []), none⟩ none, stQ) ∧
    PS.onRequest req tokP stP now frP =
      (⟨204, PS.getCorsHeaders req, none⟩, stP, none) := by
  constructor
  · simp [QP.onRequest, h]
  · simp [PS.onRequest, h]

/-- Witness for C6 at a concrete preflight request with a disallowed origin
and a nonempty store. -/
theorem claim_C6_witness :
    QP.onRequest reqOptions none [(("z".toList), ⟨3, 7⟩)] 5 (.error []) =
      (.resp ⟨204, QP.getCorsHeaders (reqOptions.origin.getD []), none⟩ none,
       [(("z".toList), ⟨3, 7⟩)]) ∧
    PS.onRequest reqOptions none [(("z".toList), ⟨3, 7⟩)] 5 (.error []) =
      (⟨204, PS.getCorsHeaders reqOptions, none⟩, [(("z".toList), ⟨3, 7⟩)], none) :=
  claim_C6 reqOptions none none [(("z".toList), ⟨3, 7⟩)] [(("z".toList), ⟨3, 7⟩)] 5
    (.error []) (.error []) rfl

/-! ### Claim C2 — token check versus rate limiter ordering -/

/-- Claim C2 (amended): in the path-segment variant the token check does
precede the rate limiter — a non-`OPTIONS` request with the secret absent
gets a 500 configuration error and the rate store is unchanged.  In the
query-parameter variant the rate limiter runs first: such a request updates
the rate store exactly as `checkRateLimit` does, and is answered 500 only
when admitted (429 when the window is already exhausted). -/
theorem claim_C2_amended :
    (∀ (req : Request) (stP : PS.RateState) (now : Int) (fr : FetchRes),
      req.method ≠ ("OPTIONS".toList) →
      PS.onRequest req none stP now fr =
        (⟨500, omerge [(hContentType, vAppJson)] (PS.getCorsHeaders req),
          some (.errObj ("Server configuration error".toList))⟩, stP, none)) ∧
    (∀ (req : Request) (stQ : QP.RateState) (now : Int) (fr : FetchRes),
      req.method ≠ ("OPTIONS".toList) →
      (req.method = ("GET".toList) ∨ (req.origin.getD []) ∈ QP.ALLOWED_ORIGINS) →
      (QP.onRequest req none stQ now fr).2 =
        (QP.checkRateLimit stQ (QP.clientIP req) now).2 ∧
      ((QP.checkRateLimit stQ (QP.clientIP req) now).1 = true →
        QP.respOf (QP.onRequest req none stQ now fr).1 =
          some ⟨500, omerge (QP.getCorsHeaders (req.origin.getD []))
              [(hContentType, vAppJson)],
            some (.errObj ("Server configuration error".toList))⟩) ∧
      ((QP.checkRateLimit stQ (QP.clientIP req) now).1 = false →
        (QP.respOf (QP.onRequest req none stQ now fr).1).map Response.status =
          some 429)) := by
  constructor
  · intro req stP now fr h
    simp only [PS.onRequest]
    rw [if_neg h]
  · intro req stQ now fr h h2
    have hcond : ¬ (req.method ≠ ("GET".toList) ∧ (req.origin.getD []) ∉ QP.ALLOWED_ORIGINS) := by
      rcases h2 with h2 | h2
      · exact fun hc => hc.1 h2
      · exact fun hc => hc.2 h2
    simp only [QP.onRequest]
    rw [if_neg h, if_neg hcond]
    by_cases hb : (QP.checkRateLimit stQ (QP.clientIP req) now).1 = true
    · rw [if_pos hb]
      exact ⟨rfl, fun _ => rfl, fun hf => absurd hb (by simp [hf])⟩
    · rw [if_neg hb]
      exact ⟨rfl, fun ht => absurd ht hb, fun _ => rfl⟩

/-- Witness for C2: the path-segment variant returns 500 with the store
unchanged; the query-parameter variant also returns 500 once admitted. -/
theorem claim_C2_witness :
    PS.onRequest reqPSClients none [] 5 (.error []) =
      (⟨500, omerge [(hContentType, vAppJson)] (PS.getCorsHeaders reqPSClients),
        some (.errObj ("Server configuration error".toList))⟩, [], none) ∧
    QP.respOf (QP.onRequest reqC2 none [] 5 (.error [])).1 =
      some ⟨500, omerge (QP.getCorsHeaders (reqC2.origin.getD []))
          [(hContentType, vAppJson)],
        some (.errObj ("Server configuration error".toList))⟩ := by
  refine ⟨claim_C2_amended.1 reqPSClients [] 5 (.error []) (by decide), ?_⟩
  exact (claim_C2_amended.2 reqC2 [] 5 (.error []) (by decide) (Or.inl rfl)).2.1 (by decide)

/-- Counterexample to C2 as stated: in the query-parameter variant a GET
with the secret token absent is answered 500, yet the rate-limit store has
changed — the rate limiter was consulted before the token check, so the
request was counted. -/
theorem claim_C2_cex :
    (QP.respOf (QP.onRequest reqC2 none [] 5 (.error [])).1).map Response.status =
      some 500 ∧
    (QP.onRequest reqC2 none [] 5 (.error [])).2 = [(("9.9.9.9".toList), ⟨5, 1⟩)] ∧
    ([] : QP.RateState) ≠ (QP.onRequest reqC2 none [] 5 (.error [])).2 :=
  ⟨by decide, by decide, by decide⟩

/-! ### Claim C4 — window admission and the (limit+1)-th request -/

theorem runSeq_nil (st : PS.RateState) (ip : Str) : runSeq st ip [] = (st, true) := rfl

theorem runSeq_sameWindow (ip : Str) :
    ∀ (ts : List Int) (st : PS.RateState) (k : Nat) (t0 : Int),
      mget st ip = some ⟨k, t0⟩ → 1 ≤ k → k + ts.length ≤ PS.RATE_LIMIT →
      (∀ t ∈ ts, t - t0 ≤ PS.RATE_WINDOW) →
      runSeq st ip ts = (mset st ip ⟨k + ts.length, t0⟩, true) := by
  intro ts
  induction ts with
  | nil =>
    intro st k t0 hg _ _ _
    rw [runSeq_nil]
    simp only [List.length_nil, Nat.add_zero]
    rw [mset_self st ip ⟨k, t0⟩ hg]
  | cons t rest ih =>
    intro st k t0 hg hk hlen hin
    have h1000 : k + (rest.length + 1) ≤ 1000 := by
      have h := hlen
      simp only [PS.RATE_LIMIT, List.length_cons] at h
      omega
    have hcnt : (⟨k, t0⟩ : PS.Rec).count < PS.RATE_LIMIT := by
      show k < PS.RATE_LIMIT
      simp only [PS.RATE_LIMIT]
      omega
    have hstep := (checkRateLimit_cases st [] ip t).2.2.2.1 ⟨k, t0⟩ hg
      (hin t (List.mem_cons_self t rest)) hcnt
    have hrun : runSeq st ip (t :: rest) = runSeq (mset st ip ⟨k + 1, t0⟩) ip rest := by
      simp only [runSeq, List.foldl_cons, hstep, Bool.true_and]
    rw [hrun]
    have ihlen : k + 1 + rest.length ≤ PS.RATE_LIMIT := by
      simp only [PS.RATE_LIMIT]
      omega
    have ih2 := ih (mset st ip ⟨k + 1, t0⟩) (k + 1) t0 (mget_mset_self st ip ⟨k + 1, t0⟩)
      (by omega) ihlen (fun x hx => hin x (List.mem_cons_of_mem t hx))
    rw [ih2, mset_mset]
    have harith : k + 1 + rest.length = k + (t :: rest).length := by
      simp only [List.length_cons]
      omega
    rw [harith]

/-- Claim C4 (amended): a client starting a fresh window has its first
request and every further request within the window admitted as long as at
most `limit` requests are made, leaving a count of `n + 1`; with the count
at the limit, a request still inside the window is rejected with
`resetAt = windowStart + windowLength`, which satisfies `now ≤ resetAt` —
strictly greater exactly when the request arrives strictly before the
window's end (at `now = windowStart + windowLength` the request is still
rejected but `resetAt` equals the current time); a rejected check makes the
handler answer 429. -/
theorem claim_C4_amended :
    (∀ (st : PS.RateState) (ip : Str) (t0 : Int) (ts : List Int),
      mget st ip = none →
      ts.length + 1 ≤ PS.RATE_LIMIT →
      (∀ t ∈ ts, t - t0 ≤ PS.RATE_WINDOW) →
      (PS.checkRateLimit st ip t0).1.allowed = true ∧
      runSeq (PS.checkRateLimit st ip t0).2 ip ts =
        (mset st ip ⟨ts.length + 1, t0⟩, true)) ∧
    (∀ (st : PS.RateState) (ip : Str) (t0 t : Int),
      mget st ip = some ⟨PS.RATE_LIMIT, t0⟩ →
      t - t0 ≤ PS.RATE_WINDOW →
      PS.checkRateLimit st ip t = (⟨false, 0, some (t0 + PS.RATE_WINDOW)⟩, st) ∧
      t ≤ t0 + PS.RATE_WINDOW) ∧
    (∀ (req : Request) (tok : Str) (st : PS.RateState) (now : Int) (fr : FetchRes),
      req.method ≠ ("OPTIONS".toList) →
      (PS.checkRateLimit st (PS.getRateLimitKey req) now).1.allowed = false →
      (PS.onRequest req (some tok) st now fr).1.status = 429) := by
  refine ⟨?_, ?_, ?_⟩
  · intro st ip t0 ts hg hlen hin
    have h0 := (checkRateLimit_cases st [] ip t0).1 hg
    constructor
    · rw [h0]
    · rw [h0]
      have hlen' : 1 + ts.length ≤ PS.RATE_LIMIT := by
        simp only [PS.RATE_LIMIT] at hlen ⊢
        omega
      have hr := runSeq_sameWindow ip ts (mset st ip ⟨1, t0⟩) 1 t0
        (mget_mset_self st ip ⟨1, t0⟩) le_rfl hlen' hin
      show runSeq (mset st ip ⟨1, t0⟩) ip ts = _
      rw [hr, mset_mset, Nat.add_comm 1 ts.length]
  · intro st ip t0 t hg hle
    refine ⟨(checkRateLimit_cases st [] ip t).2.2.1 ⟨PS.RATE_LIMIT, t0⟩ hg hle (le_refl _), ?_⟩
    omega
  · intro req tok st now fr hm hflag
    simp only [PS.onRequest]
    rw [if_neg hm, if_neg (by simp [hflag])]

/-- Witness for C4: two follow-up requests inside the window are admitted
(final count 3); a full window rejects at its exact end with
`resetAt = 60000`; the handler then answers 429. -/
theorem claim_C4_witness :
    (PS.checkRateLimit [] ("c".toList) 0).1.allowed = true ∧
    runSeq (PS.checkRateLimit [] ("c".toList) 0).2 ("c".toList) [10, 20] =
      ([(("c".toList), ⟨3, 0⟩)], true) ∧
    PS.checkRateLimit stFull ("9.9.9.9".toList) 60000 =
      (⟨false, 0, some 60000⟩, stFull) ∧
    (PS.onRequest reqPSClients (some ("t".toList)) stFull 60000 (.error [])).1.status =
      429 := by
  have h1 := claim_C4_amended.1 [] ("c".toList) 0 [10, 20] rfl (by decide)
    (by decide)
  have h2 := claim_C4_amended.2.1 stFull ("9.9.9.9".toList) 0 60000 (by decide) (by decide)
  have h3 := claim_C4_amended.2.2 reqPSClients ("t".toList) stFull 60000 (.error [])
    (by decide) (by decide)
  refine ⟨h1.1, ?_, ?_, h3⟩
  · rw [h1.2]; decide
  · rw [h2.1]; decide

/-- Counterexample to C4 as stated: client `c` makes its first request at
time 0 and 999 more within the window (all admitted — the full limit of
1000 requests); the 1001st request arrives at time 60000, which the code
still treats as the same window, and is rejected with `resetAt = 60000` —
not strictly greater than the current time 60000. -/
theorem claim_C4_cex :
    (PS.checkRateLimit [] ("c".toList) 0).1.allowed = true ∧
    (runSeq (PS.checkRateLimit [] ("c".toList) 0).2 ("c".toList)
      (List.replicate 999 0)).2 = true ∧
    PS.checkRateLimit
        (runSeq (PS.checkRateLimit [] ("c".toList) 0).2 ("c".toList)
          (List.replicate 999 0)).1 ("c".toList) 60000 =
      (⟨false, 0, some 60000⟩, [(("c".toList), ⟨1000, 0⟩)]) ∧
    ¬ (60000 : Int) > (60000 : Int) := by
  have h0 : PS.checkRateLimit [] ("c".toList) 0 =
      (⟨true, 999, none⟩, [(("c".toList), ⟨1, 0⟩)]) := by decide
  have hrun := runSeq_sameWindow ("c".toList) (List.replicate 999 0)
    [(("c".toList), ⟨1, 0⟩)] 1 0 (by decide) le_rfl
    (by simp only [List.length_replicate, PS.RATE_LIMIT]; omega)
    (by
      intro t ht
      rw [List.eq_of_mem_replicate ht]
      decide)
  simp only [List.length_replicate] at hrun
  refine ⟨by rw [h0], ?_, ?_, by omega⟩
  · simp only [h0]
    rw [hrun]
  · simp only [h0]
    rw [hrun]
    decide

/-! ### Claim C1 — the query-variant path allow-list -/

theorem splitOnChar_ne_nil (sep : Char) (s : Str) : splitOnChar sep s ≠ [] := by
  cases s with
  | nil => simp [splitOnChar]
  | cons c cs =>
    simp only [splitOnChar]
    by_cases h : c = sep
    · simp [h]
    · rw [if_neg h]
      cases splitOnChar sep cs <;> simp

theorem headI_splitOnChar_cons_ne (sep c : Char) (cs : Str) (h : c ≠ sep) :
    (splitOnChar sep (c :: cs)).headI = c :: (splitOnChar sep cs).headI := by
  simp only [splitOnChar]
  rw [if_neg h]
  rcases hs : splitOnChar sep cs with _ | ⟨g, gs⟩
  · exact absurd hs (splitOnChar_ne_nil sep cs)
  · simp [List.headI]

theorem splitOnChar_no_sep (sep : Char) :
    ∀ t : Str, (∀ c ∈ t, c ≠ sep) → splitOnChar sep t = [t] := by
  intro t
  induction t with
  | nil => intro _; rfl
  | cons c cs ih =>
    intro h
    have hc : c ≠ sep := h c (List.mem_cons_self c cs)
    simp only [splitOnChar]
    rw [if_neg hc, ih (fun x hx => h x (List.mem_cons_of_mem c hx))]

theorem splitOnChar_append_cons (sep : Char) :
    ∀ (t rest : Str), (∀ c ∈ t, c ≠ sep) →
      splitOnChar sep (t ++ sep :: rest) = t :: splitOnChar sep rest := by
  intro t
  induction t with
  | nil =>
    intro rest _
    simp [splitOnChar]
  | cons c cs ih =>
    intro rest h
    have hc : c ≠ sep := h c (List.mem_cons_self c cs)
    simp only [List.cons_append, splitOnChar, List.append_eq]
    rw [if_neg hc, ih rest (fun x hx => h x (List.mem_cons_of_mem c hx))]

theorem replaceFirst_drop (pat s : Str) (hne : pat ≠ [])
    (h : pat.isPrefixOf s) : replaceFirst pat s = s.drop pat.length := by
  cases s with
  | nil =>
    cases pat with
    | nil => exact absurd rfl hne
    | cons a as => simp [List.isPrefixOf] at h
  | cons c cs =>
    simp only [replaceFirst]
    rw [if_pos h]

theorem replaceFirst_cons_skip (pat : Str) (c : Char) (cs : Str)
    (h : ¬ pat.isPrefixOf (c :: cs)) :
    replaceFirst pat (c :: cs) = c :: replaceFirst pat cs := by
  simp only [replaceFirst]
  rw [if_neg h]

theorem takeWhile_append_all {p : Char → Bool} :
    ∀ (l t : Str), (∀ c ∈ l, p c = true) →
      (l ++ t).takeWhile p = l ++ t.takeWhile p := by
  intro l
  induction l with
  | nil => intro t _; rfl
  | cons a l ih =>
    intro t h
    rw [List.cons_append, List.takeWhile_cons, if_pos (h a (List.mem_cons_self a l)),
      ih t (fun x hx => h x (List.mem_cons_of_mem a hx)), List.cons_append]


theorem decodeURIComponent_cons_a (cs : Str) :
    decodeURIComponent ('a' :: cs) = (decodeURIComponent cs).map ('a' :: ·) := rfl

theorem QP_tables_head : ∀ t ∈ QP.ALLOWED_TABLES, t.head? ≠ some 'a' := by decide

theorem QP_tables_no_slash : ∀ t ∈ QP.ALLOWED_TABLES, ∀ c ∈ t, c ≠ '/' := by decide

theorem QP_tables_decode : ∀ t ∈ QP.ALLOWED_TABLES, (decodeURIComponent t).isSome = true := by
  decide

theorem firstSeg_base_append (t : Str) :
    firstSeg (QP.ALLOWED_BASE ++ t) = QP.ALLOWED_BASE ++ firstSeg t :=
  takeWhile_append_all QP.ALLOWED_BASE t (by decide)

theorem validatePath_eval (p : Str) (hp : p ≠ [])
    (hpre : QP.ALLOWED_BASE.isPrefixOf p) :
    QP.validatePath (some p) =
      (if QP.tableOf p = [] then .err ("Missing table name".toList)
       else
        match decodeURIComponent (QP.tableOf p) with
        | none => .thrown
        | some d =>
          if QP.tableOf p ∈ QP.ALLOWED_TABLES ∨ d ∈ QP.ALLOWED_TABLES then .okValid
          else .err ("Table not allowed".toList)) := by
  simp only [QP.validatePath]
  rw [if_neg hp, if_neg (fun hn => hn hpre)]

theorem tableOf_strip (x : Str) :
    QP.tableOf (QP.ALLOWED_BASE ++ '/' :: x) = (splitOnChar '/' x).headI := by
  unfold QP.tableOf
  rw [List.append_cons QP.ALLOWED_BASE '/' x]
  rw [replaceFirst_drop (QP.ALLOWED_BASE ++ ['/']) _ (by decide)
    (List.isPrefixOf_iff_prefix.mpr (List.prefix_append _ x))]
  rw [List.drop_left]

theorem validatePath_ok_of_mem (t : Str) (ht : t ∈ QP.ALLOWED_TABLES) :
    QP.validatePath (some (QP.ALLOWED_BASE ++ '/' :: t)) = .okValid ∧
    (∀ rest : Str,
      QP.validatePath (some (QP.ALLOWED_BASE ++ '/' :: (t ++ '/' :: rest))) = .okValid) := by
  obtain ⟨d, hd⟩ := Option.isSome_iff_exists.mp (QP_tables_decode t ht)
  have htne : t ≠ [] := by
    intro h0
    rw [h0] at ht
    exact absurd ht (by decide)
  constructor
  · have htab : QP.tableOf (QP.ALLOWED_BASE ++ '/' :: t) = t := by
      rw [tableOf_strip, splitOnChar_no_sep '/' t (QP_tables_no_slash t ht)]
      rfl
    rw [validatePath_eval _ (by simp) (List.isPrefixOf_iff_prefix.mpr (List.prefix_append _ _)),
      htab, if_neg htne, hd]
    exact if_pos (Or.inl ht)
  · intro rest
    have htab : QP.tableOf (QP.ALLOWED_BASE ++ '/' :: (t ++ '/' :: rest)) = t := by
      rw [tableOf_strip, splitOnChar_append_cons '/' t rest (QP_tables_no_slash t ht)]
      rfl
    rw [validatePath_eval _ (by simp) (List.isPrefixOf_iff_prefix.mpr (List.prefix_append _ _)),
      htab, if_neg htne, hd]
    exact if_pos (Or.inl ht)

theorem validate_not_ok_of_firstSeg (p : Str)
    (h : firstSeg p ≠ QP.ALLOWED_BASE) :
    QP.validatePath (some p) ≠ QP.VResult.okValid := by
  by_cases hpre : QP.ALLOWED_BASE.isPrefixOf p
  · obtain ⟨t, rfl⟩ := List.isPrefixOf_iff_prefix.mp hpre
    rcases t with _ | ⟨c, t'⟩
    · exact absurd (by rw [List.append_nil]; decide) h
    · by_cases hcall : c = '/'
      · subst hcall
        refine absurd ?_ h
        rw [firstSeg_base_append]
        rw [show firstSeg ('/' :: t') = [] from rfl, List.append_nil]
      · have hnp : ¬ (QP.ALLOWED_BASE ++ ['/']).isPrefixOf (QP.ALLOWED_BASE ++ c :: t') := by
          intro hx
          rw [List.isPrefixOf_iff_prefix, List.prefix_append_right_inj] at hx
          rcases hx with ⟨u, hu⟩
          exact hcall (List.head_eq_of_cons_eq hu).symm
        have hrepl : replaceFirst (QP.ALLOWED_BASE ++ ['/']) (QP.ALLOWED_BASE ++ c :: t') =
            'a' :: replaceFirst (QP.ALLOWED_BASE ++ ['/'])
              (("pplOjDjhH0RqLtBH".toList) ++ c :: t') :=
          replaceFirst_cons_skip (QP.ALLOWED_BASE ++ ['/']) 'a'
            (("pplOjDjhH0RqLtBH".toList) ++ c :: t') hnp
        have htab : ∃ v, QP.tableOf (QP.ALLOWED_BASE ++ c :: t') = 'a' :: v := by
          unfold QP.tableOf
          rw [hrepl, headI_splitOnChar_cons_ne '/' 'a' _ (by decide)]
          exact ⟨_, rfl⟩
        obtain ⟨v, hv⟩ := htab
        have hpne : QP.ALLOWED_BASE ++ c :: t' ≠ [] := fun h0 =>
          List.cons_ne_nil c t' (List.append_eq_nil.mp h0).2
        rw [validatePath_eval _ hpne hpre, hv, if_neg (by simp)]
        rcases hdec : decodeURIComponent ('a' :: v) with _ | d
        · simp
        · rw [decodeURIComponent_cons_a v] at hdec
          obtain ⟨d0, hd0, rfl⟩ : ∃ a, decodeURIComponent v = some a ∧ 'a' :: a = d :=
            Option.map_eq_some'.mp hdec
          have hcond : ¬ (('a' :: v) ∈ QP.ALLOWED_TABLES ∨
              ('a' :: d0) ∈ QP.ALLOWED_TABLES) := by
            rintro (hm | hm)
            · exact QP_tables_head _ hm rfl
            · exact QP_tables_head _ hm rfl
          show (if ('a' :: v) ∈ QP.ALLOWED_TABLES ∨ ('a' :: d0) ∈ QP.ALLOWED_TABLES
            then QP.VResult.okValid
            else QP.VResult.err ("Table not allowed".toList)) ≠ QP.VResult.okValid
          rw [if_neg hcond]
          simp
  · by_cases hp : p = []
    · subst hp
      decide
    · simp only [QP.validatePath]
      rw [if_neg hp, if_pos hpre]
      simp

/-- Claim C1 (amended): the query-variant path validation is fail-closed —
a missing path yields the explicit missing-path error; a path whose first
segment is not exactly the allowed base is never accepted; an accepted path
must start with the allowed base and have its derived table segment in the
allow-list either literally or after decoding; and a table enumerated in
both encoded and decoded forms is accepted in either presentation, with or
without a record suffix.  However, when the derived table segment's
percent-decoding is malformed, `validatePath` raises an uncaught `URIError`
(modelled as `thrown`) instead of returning a structured invalid result —
the function throws exactly in that case (and it still never accepts). -/
theorem claim_C1_amended :
    QP.validatePath none = .err ("Missing path parameter".toList) ∧
    (∀ p : Str, firstSeg p ≠ QP.ALLOWED_BASE →
      QP.validatePath (some p) ≠ .okValid) ∧
    (∀ p : Str, QP.validatePath (some p) = .okValid →
      QP.ALLOWED_BASE.isPrefixOf p ∧
      (QP.tableOf p ∈ QP.ALLOWED_TABLES ∨
        ∃ d, decodeURIComponent (QP.tableOf p) = some d ∧ d ∈ QP.ALLOWED_TABLES)) ∧
    (∀ p : Str, QP.validatePath (some p) = .thrown →
      decodeURIComponent (QP.tableOf p) = none) ∧
    (∀ t ∈ QP.ALLOWED_TABLES, ∀ rest : Str,
      QP.validatePath (some (QP.ALLOWED_BASE ++ '/' :: t)) = .okValid ∧
      QP.validatePath (some (QP.ALLOWED_BASE ++ '/' :: (t ++ '/' :: rest))) = .okValid) := by
  refine ⟨rfl, validate_not_ok_of_firstSeg, ?_, ?_, ?_⟩
  · intro p hok
    simp only [QP.validatePath] at hok
    split at hok
    · exact absurd hok (by simp)
    · split at hok
      · exact absurd hok (by simp)
      · rename_i hp hpre
        split at hok
        · exact absurd hok (by simp)
        · split at hok
          · exact absurd hok (by simp)
          · rename_i d hdec
            split at hok
            · rename_i hmem
              refine ⟨not_not.mp hpre, ?_⟩
              rcases hmem with hm | hm
              · exact Or.inl hm
              · exact Or.inr ⟨d, hdec, hm⟩
            · exact absurd hok (by simp)
  · intro p hthr
    simp only [QP.validatePath] at hthr
    split at hthr
    · exact absurd hthr (by simp)
    · split at hthr
      · exact absurd hthr (by simp)
      · split at hthr
        · exact absurd hthr (by simp)
        · split at hthr
          · rename_i hdec
            exact hdec
          · split at hthr
            · exact absurd hthr (by simp)
            · exact absurd hthr (by simp)
  · intro t ht rest
    exact ⟨(validatePath_ok_of_mem t ht).1, (validatePath_ok_of_mem t ht).2 rest⟩

/-- Witness for C1: a base extended by one character is rejected even
though it passes the `startsWith` test; an accepted encoded table satisfies
the soundness components; `Team Members` is accepted bare and with a record
id. -/
theorem claim_C1_witness :
    QP.validatePath (some ("applOjDjhH0RqLtBHX/Team Members".toList)) ≠ .okValid ∧
    (QP.ALLOWED_BASE.isPrefixOf ("applOjDjhH0RqLtBH/Team%20Members".toList) ∧
      (QP.tableOf ("applOjDjhH0RqLtBH/Team%20Members".toList) ∈ QP.ALLOWED_TABLES ∨
        ∃ d, decodeURIComponent (QP.tableOf ("applOjDjhH0RqLtBH/Team%20Members".toList)) =
            some d ∧ d ∈ QP.ALLOWED_TABLES)) ∧
    QP.validatePath (some (QP.ALLOWED_BASE ++ '/' :: ("Team Members".toList))) = .okValid ∧
    QP.validatePath (some (QP.ALLOWED_BASE ++ '/' ::
      (("Team Members".toList) ++ '/' :: ("rec1".toList)))) = .okValid := by
  refine ⟨claim_C1_amended.2.1 _ (by decide), claim_C1_amended.2.2.1 _ (by decide), ?_, ?_⟩
  · exact (claim_C1_amended.2.2.2.2 ("Team Members".toList) (by decide) ("rec1".toList)).1
  · exact (claim_C1_amended.2.2.2.2 ("Team Members".toList) (by decide) ("rec1".toList)).2

/-- Counterexample to C1 as stated: the path `applOjDjhH0RqLtBH/%` has an
allowed base and a table matching the allow-list in neither literal nor
decoded form, yet `validatePath` does not return an invalid result with an
error — `decodeURIComponent('%')` throws a `URIError` that escapes the
function (the `thrown` outcome). -/
theorem claim_C1_cex :
    QP.validatePath (some ("applOjDjhH0RqLtBH/%".toList)) = QP.VResult.thrown ∧
    decodeURIComponent (QP.tableOf ("applOjDjhH0RqLtBH/%".toList)) = none :=
  ⟨by decide, by decide⟩

/-! ### Evaluation lemmas for the branch reaching the upstream call -/

theorem QP_fetch_eval (req : Request) (tok : Str) (st : QP.RateState) (now : Int)
    (fr : FetchRes) (p : Str)
    (h1 : req.method ≠ ("OPTIONS".toList))
    (h2 : ¬ (req.method ≠ ("GET".toList) ∧ (req.origin.getD []) ∉ QP.ALLOWED_ORIGINS))
    (h3 : (QP.checkRateLimit st (QP.clientIP req) now).1 = true)
    (h4 : spGet (QP.searchParamsOf req) ("path".toList) = some p)
    (h5 : QP.validatePath (some p) = .okValid) :
    QP.onRequest req (some tok) st now fr =
      (let corsHeaders := QP.getCorsHeaders (req.origin.getD [])
       let rawUrl := QP.apiBase ++ p
       let split := QP.urlSplit rawUrl
       let params := (QP.searchParamsOf req).foldl QP.forwardStep
         (parseQuery (split.2.getD []))
       let fbody : Option Str :=
         if req.method ∈ [("POST".toList), ("PATCH".toList), ("PUT".toList)] then
           match req.bodyText with
           | some b => if b = [] then none else some b
           | none => none
         else none
       let outb : QP.Outbound := ⟨rawUrl, split.1, params, req.method, fbody⟩
       match fr with
       | .error _ =>
         (.resp ⟨502, omerge corsHeaders [(hContentType, vAppJson)],
           some (.errObj ("Failed to fetch from Airtable".toList))⟩ (some outb),
          (QP.checkRateLimit st (QP.clientIP req) now).2)
       | .ok u =>
         (.resp ⟨u.status, omerge corsHeaders [(hContentType, vAppJson)],
           some (.text u.body)⟩ (some outb),
          (QP.checkRateLimit st (QP.clientIP req) now).2)) := by
  simp only [QP.onRequest]
  rw [if_neg h1, if_neg h2, if_pos h3, h4, h5]

theorem PS_fetch_eval (req : Request) (tok : Str) (st : PS.RateState) (now : Int)
    (fr : FetchRes) (ap b t : Str) (rid : Option Str) (bj : Option Json)
    (h1 : req.method ≠ ("OPTIONS".toList))
    (h3 : (PS.checkRateLimit st (PS.getRateLimitKey req) now).1.allowed = true)
    (h4 : PS.pathMatch req.pathname = some ap)
    (h5 : PS.validatePath ap = .ok b t rid)
    (h6 : bodyRoute req = some bj) :
    PS.onRequest req (some tok) st now fr =
      (let cors := PS.getCorsHeaders req
       let rl := PS.checkRateLimit st (PS.getRateLimitKey req) now
       let url1 := PS.apiV0 ++ b ++ ['/'] ++ PS.encodeURIComponent t
       let url2 := match rid with
         | some r => url1 ++ ['/'] ++ r
         | none => url1
       let urlStr := if req.search ≠ [] then url2 ++ req.search else url2
       let outb : PS.Outbound := ⟨urlStr, req.method, bj⟩
       match fr with
       | .error msg =>
         (⟨502, omerge [(hContentType, vAppJson)] cors,
           some (.errObjDetails ("Failed to fetch from Airtable".toList) msg)⟩,
          rl.2, some outb)
       | .ok u =>
         match jsonParse u.body with
         | none =>
           (⟨502, omerge [(hContentType, vAppJson)] cors,
             some (.errObjDetails ("Failed to fetch from Airtable".toList)
               PS.JSON_PARSE_ERR_MSG)⟩, rl.2, some outb)
         | some d =>
           (⟨u.status,
             omerge [(hContentType, vAppJson),
                     (hXRLLimit, natStr PS.RATE_LIMIT),
                     (hXRLRemaining, intStr rl.1.remaining)] cors,
             some (.jsonOf d)⟩, rl.2, some outb)) := by
  simp only [PS.onRequest]
  rw [if_neg h1, if_pos h3]
  simp only [h4, h5]
  by_cases hmeth : req.method ∈ [("POST".toList), ("PATCH".toList), ("PUT".toList)]
  · rw [if_pos hmeth]
    simp only [bodyRoute, if_pos hmeth] at h6
    rcases hbt : req.bodyText with _ | btxt
    · rw [hbt] at h6
      exact absurd h6 (by simp)
    · rw [hbt] at h6
      obtain ⟨j, hj, rfl⟩ : ∃ j, jsonParse btxt = some j ∧ some j = bj :=
        Option.map_eq_some'.mp h6
      simp only [hbt, hj]
      cases rid <;> rfl
  · rw [if_neg hmeth]
    simp only [bodyRoute, if_neg hmeth] at h6
    obtain rfl : (none : Option Json) = bj := Option.some.inj h6
    cases rid <;> rfl

/-! ### Claim C8 — transport failure handling -/

/-- Claim C8 (amended): every request that reaches the upstream call and
hits a transport failure is answered with exactly one 502 whose error field
is the fixed string `Failed to fetch from Airtable`, and the rate store has
already been advanced by the admission check, so the attempt counts.  In
the query-parameter variant the body is entirely fixed; in the path-segment
variant the body additionally carries the raw transport error message in a
`details` field, so the transport error's text does reach the client
there. -/
theorem claim_C8_amended :
    (∀ (req : Request) (tok : Str) (st : QP.RateState) (now : Int) (msg p : Str),
      req.method ≠ ("OPTIONS".toList) →
      ¬ (req.method ≠ ("GET".toList) ∧ (req.origin.getD []) ∉ QP.ALLOWED_ORIGINS) →
      (QP.checkRateLimit st (QP.clientIP req) now).1 = true →
      spGet (QP.searchParamsOf req) ("path".toList) = some p →
      QP.validatePath (some p) = .okValid →
      QP.respOf (QP.onRequest req (some tok) st now (.error msg)).1 =
        some ⟨502, omerge (QP.getCorsHeaders (req.origin.getD []))
            [(hContentType, vAppJson)],
          some (.errObj ("Failed to fetch from Airtable".toList))⟩ ∧
      (QP.outbOf (QP.onRequest req (some tok) st now (.error msg)).1).isSome = true ∧
      (QP.onRequest req (some tok) st now (.error msg)).2 =
        (QP.checkRateLimit st (QP.clientIP req) now).2) ∧
    (∀ (req : Request) (tok : Str) (st : PS.RateState) (now : Int) (msg ap b t : Str)
        (rid : Option Str) (bj : Option Json),
      req.method ≠ ("OPTIONS".toList) →
      (PS.checkRateLimit st (PS.getRateLimitKey req) now).1.allowed = true →
      PS.pathMatch req.pathname = some ap →
      PS.validatePath ap = .ok b t rid →
      bodyRoute req = some bj →
      (PS.onRequest req (some tok) st now (.error msg)).1 =
        ⟨502, omerge [(hContentType, vAppJson)] (PS.getCorsHeaders req),
          some (.errObjDetails ("Failed to fetch from Airtable".toList) msg)⟩ ∧
      (PS.onRequest req (some tok) st now (.error msg)).2.2.isSome = true ∧
      (PS.onRequest req (some tok) st now (.error msg)).2.1 =
        (PS.checkRateLimit st (PS.getRateLimitKey req) now).2) := by
  constructor
  · intro req tok st now msg p h1 h2 h3 h4 h5
    rw [QP_fetch_eval req tok st now (.error msg) p h1 h2 h3 h4 h5]
    exact ⟨rfl, rfl, rfl⟩
  · intro req tok st now msg ap b t rid bj h1 h3 h4 h5 h6
    rw [PS_fetch_eval req tok st now (.error msg) ap b t rid bj h1 h3 h4 h5 h6]
    exact ⟨rfl, rfl, rfl⟩

/-- Witness for C8 at concrete transport failures in both variants. -/
theorem claim_C8_witness :
    QP.respOf (QP.onRequest reqQPTeam (some ("tok".toList)) [] 0
        (.error ("boomQ".toList))).1 =
      some ⟨502, omerge (QP.getCorsHeaders (reqQPTeam.origin.getD []))
          [(hContentType, vAppJson)],
        some (.errObj ("Failed to fetch from Airtable".toList))⟩ ∧
    (PS.onRequest reqPSClients (some ("t".toList)) [] 5 (.error ("boomA".toList))).1 =
      ⟨502, omerge [(hContentType, vAppJson)] (PS.getCorsHeaders reqPSClients),
        some (.errObjDetails ("Failed to fetch from Airtable".toList) ("boomA".toList))⟩ := by
  constructor
  · exact (claim_C8_amended.1 reqQPTeam ("tok".toList) [] 0 ("boomQ".toList)
      ("applOjDjhH0RqLtBH/Team Members/rec1".toList)
      (by decide) (by decide) (by decide) (by decide) (by decide)).1
  · exact (claim_C8_amended.2 reqPSClients ("t".toList) [] 5 ("boomA".toList)
      ("appXXXXXXXXXXXXXX/Clients".toList) ("appXXXXXXXXXXXXXX".toList) ("Clients".toList)
      none none (by decide) (by decide) (by decide) (by decide) rfl).1

/-- Counterexample to C8 as stated: in the path-segment variant two
different transport errors produce two different 502 bodies — the raw
transport error message (`details`) is propagated to the client, so the
body is not a fixed synthetic shape independent of the transport error. -/
theorem claim_C8_cex :
    (PS.onRequest reqPSClients (some ("t".toList)) [] 5
      (.error ("boomA".toList))).1.status = 502 ∧
    (PS.onRequest reqPSClients (some ("t".toList)) [] 5
        (.error ("boomA".toList))).1.body =
      some (.errObjDetails ("Failed to fetch from Airtable".toList) ("boomA".toList)) ∧
    (PS.onRequest reqPSClients (some ("t".toList)) [] 5
        (.error ("boomB".toList))).1.body =
      some (.errObjDetails ("Failed to fetch from Airtable".toList) ("boomB".toList)) ∧
    (PS.onRequest reqPSClients (some ("t".toList)) [] 5
        (.error ("boomA".toList))).1.body ≠
      (PS.onRequest reqPSClients (some ("t".toList)) [] 5
        (.error ("boomB".toList))).1.body := by
  have hA : (PS.onRequest reqPSClients (some ("t".toList)) [] 5
      (.error ("boomA".toList))).1.body =
      some (.errObjDetails ("Failed to fetch from Airtable".toList) ("boomA".toList)) := rfl
  have hB : (PS.onRequest reqPSClients (some ("t".toList)) [] 5
      (.error ("boomB".toList))).1.body =
      some (.errObjDetails ("Failed to fetch from Airtable".toList) ("boomB".toList)) := rfl
  refine ⟨rfl, hA, hB, ?_⟩
  intro h
  rw [hA, hB] at h
  simp only [Option.some.injEq, Body.errObjDetails.injEq] at h
  exact absurd h.2 (by decide)

/-! ### Claim C9 — unbounded trailing segments in the query variant -/

/-- Claim C9: path validation in the query-parameter variant imposes no
upper bound on the number of slash-separated segments — any path of the
form `<allowedBase>/<allowedTable>/<rest>` validates, for an arbitrary
`rest` that may itself contain any number of further slashes — and the
handler concatenates the raw path verbatim after the fixed upstream prefix
to form the string handed to the `URL` constructor, so everything beyond
base and table is forwarded upstream unchecked. -/
theorem claim_C9 :
    ∀ t ∈ QP.ALLOWED_TABLES, ∀ rest : Str,
      QP.validatePath (some (QP.ALLOWED_BASE ++ '/' :: (t ++ '/' :: rest))) = .okValid ∧
      (∀ (req : Request) (tok : Str) (st : QP.RateState) (now : Int) (fr : FetchRes),
        req.method ≠ ("OPTIONS".toList) →
        ¬ (req.method ≠ ("GET".toList) ∧ (req.origin.getD []) ∉ QP.ALLOWED_ORIGINS) →
        (QP.checkRateLimit st (QP.clientIP req) now).1 = true →
        spGet (QP.searchParamsOf req) ("path".toList) =
          some (QP.ALLOWED_BASE ++ '/' :: (t ++ '/' :: rest)) →
        (QP.outbOf (QP.onRequest req (some tok) st now fr).1).map QP.Outbound.rawUrl =
          some (QP.apiBase ++ (QP.ALLOWED_BASE ++ '/' :: (t ++ '/' :: rest)))) := by
  intro t ht rest
  have hok := (validatePath_ok_of_mem t ht).2 rest
  refine ⟨hok, ?_⟩
  intro req tok st now fr h1 h2 h3 h4
  rw [QP_fetch_eval req tok st now fr _ h1 h2 h3 h4 hok]
  cases fr <;> rfl

/-- Witness for C9: `Team Members` with a record segment, on a concrete
request. -/
theorem claim_C9_witness :
    QP.validatePath (some (QP.ALLOWED_BASE ++ '/' ::
      (("Team Members".toList) ++ '/' :: ("rec1".toList)))) = .okValid ∧
    (QP.outbOf (QP.onRequest reqQPTeam (some ("tok".toList)) [] 0
        (.ok ⟨200, ("ok".toList)⟩)).1).map QP.Outbound.rawUrl =
      some (QP.apiBase ++ (QP.ALLOWED_BASE ++ '/' ::
        (("Team Members".toList) ++ '/' :: ("rec1".toList)))) := by
  have h := claim_C9 ("Team Members".toList) (by decide) ("rec1".toList)
  exact ⟨h.1, h.2 reqQPTeam ("tok".toList) [] 0 (.ok ⟨200, ("ok".toList)⟩)
    (by decide) (by decide) (by decide) (by decide)⟩

/-! ### Claim C10 — JSON re-serialization of the upstream body -/

/-- Claim C10: the path-segment variant parses the upstream body as JSON
and relays the re-serialized value; whenever the upstream body is not valid
JSON — whatever the upstream status — the handler instead returns the 502
`Failed to fetch from Airtable` error. -/
theorem claim_C10 :
    ∀ (req : Request) (tok : Str) (st : PS.RateState) (now : Int) (u : Upstream)
      (ap b t : Str) (rid : Option Str) (bj : Option Json),
      req.method ≠ ("OPTIONS".toList) →
      (PS.checkRateLimit st (PS.getRateLimitKey req) now).1.allowed = true →
      PS.pathMatch req.pathname = some ap →
      PS.validatePath ap = .ok b t rid →
      bodyRoute req = some bj →
      (jsonParse u.body = none →
        (PS.onRequest req (some tok) st now (.ok u)).1 =
          ⟨502, omerge [(hContentType, vAppJson)] (PS.getCorsHeaders req),
            some (.errObjDetails ("Failed to fetch from Airtable".toList)
              PS.JSON_PARSE_ERR_MSG)⟩) ∧
      (∀ d, jsonParse u.body = some d →
        (PS.onRequest req (some tok) st now (.ok u)).1 =
          ⟨u.status,
            omerge [(hContentType, vAppJson), (hXRLLimit, natStr PS.RATE_LIMIT),
              (hXRLRemaining,
                intStr (PS.checkRateLimit st (PS.getRateLimitKey req) now).1.remaining)]
              (PS.getCorsHeaders req),
            some (.jsonOf d)⟩) := by
  intro req tok st now u ap b t rid bj h1 h3 h4 h5 h6
  refine ⟨?_, ?_⟩
  · intro hparse
    rw [PS_fetch_eval req tok st now (.ok u) ap b t rid bj h1 h3 h4 h5 h6]
    simp only [hparse]
  · intro d hparse
    rw [PS_fetch_eval req tok st now (.ok u) ap b t rid bj h1 h3 h4 h5 h6]
    simp only [hparse]

/-- Witness for C10: the upstream answers 200 with the non-JSON body
`hello`; the handler returns the 502 error. -/
theorem claim_C10_witness :
    (PS.onRequest reqPSClients (some ("t".toList)) [] 5
        (.ok ⟨200, ("hello".toList)⟩)).1 =
      ⟨502, omerge [(hContentType, vAppJson)] (PS.getCorsHeaders reqPSClients),
        some (.errObjDetails ("Failed to fetch from Airtable".toList)
          PS.JSON_PARSE_ERR_MSG)⟩ :=
  (claim_C10 reqPSClients ("t".toList) [] 5 ⟨200, ("hello".toList)⟩
    ("appXXXXXXXXXXXXXX/Clients".toList) ("appXXXXXXXXXXXXXX".toList) ("Clients".toList)
    none none (by decide) (by decide) (by decide) (by decide) rfl).1 rfl

/-! ### Claim C7 — query-parameter filtering -/

theorem spset_subset (l : List (Str × Str)) (k v : Str) :
    ∀ p ∈ spset l k v, p ∈ l ∨ p = (k, v) := by
  induction l with
  | nil =>
    intro p hp
    simp only [spset, List.mem_singleton] at hp
    exact Or.inr hp
  | cons q rest ih =>
    obtain ⟨k0, v0⟩ := q
    intro p hp
    by_cases hk : k0 = k
    · simp only [spset, if_pos hk] at hp
      rcases List.mem_cons.mp hp with h | h
      · subst hk
        exact Or.inr (by rw [h])
      · exact Or.inl (List.mem_cons_of_mem _ (List.mem_filter.mp h).1)
    · simp only [spset, if_neg hk] at hp
      rcases List.mem_cons.mp hp with h | h
      · rw [h]
        exact Or.inl (List.mem_cons_self _ _)
      · rcases ih p h with h2 | h2
        · exact Or.inl (List.mem_cons_of_mem _ h2)
        · exact Or.inr h2

theorem spset_mem_self (l : List (Str × Str)) (k v : Str) : (k, v) ∈ spset l k v := by
  induction l with
  | nil => simp [spset]
  | cons q rest ih =>
    obtain ⟨k0, v0⟩ := q
    by_cases hk : k0 = k
    · subst hk
      simp only [spset, if_pos rfl]
      exact List.mem_cons_self _ _
    · simp only [spset, if_neg hk]
      exact List.mem_cons_of_mem _ ih

theorem spset_keep (l : List (Str × Str)) (k v : Str) (p : Str × Str)
    (hp : p ∈ l) (hne : p.1 ≠ k) : p ∈ spset l k v := by
  induction l with
  | nil => cases hp
  | cons q rest ih =>
    obtain ⟨k0, v0⟩ := q
    by_cases hk : k0 = k
    · simp only [spset, if_pos hk]
      rcases List.mem_cons.mp hp with h | h
      · exfalso
        apply hne
        rw [h]
        exact hk
      · exact List.mem_cons_of_mem _ (List.mem_filter.mpr ⟨h, by simpa using hne⟩)
    · simp only [spset, if_neg hk]
      rcases List.mem_cons.mp hp with h | h
      · rw [h]
        exact List.mem_cons_self _ _
      · exact List.mem_cons_of_mem _ (ih h)

theorem foldl_forward_subset :
    ∀ (inbound : List (Str × Str)) (ps0 : List (Str × Str)) (p : Str × Str),
      p ∈ inbound.foldl QP.forwardStep ps0 → p ∈ ps0 ∨ QP.forwardName p.1 = true := by
  intro inbound
  induction inbound with
  | nil => intro ps0 p hp; exact Or.inl hp
  | cons kv rest ih =>
    intro ps0 p hp
    rw [List.foldl_cons] at hp
    rcases ih (QP.forwardStep ps0 kv) p hp with h | h
    · unfold QP.forwardStep at h
      by_cases hf : QP.forwardName kv.1
      · rw [if_pos hf] at h
        rcases spset_subset ps0 kv.1 kv.2 p h with h2 | h2
        · exact Or.inl h2
        · right
          rw [h2]
          exact hf
      · rw [if_neg hf] at h
        exact Or.inl h
    · exact Or.inr h

theorem foldl_forward_keep :
    ∀ (inbound ps0 : List (Str × Str)) (k v : Str),
      (∀ e ∈ inbound, e.1 = k → e.2 = v) → (k, v) ∈ ps0 →
      (k, v) ∈ inbound.foldl QP.forwardStep ps0 := by
  intro inbound
  induction inbound with
  | nil => intro ps0 k v _ h0; exact h0
  | cons kv rest ih =>
    intro ps0 k v huniq h0
    rw [List.foldl_cons]
    apply ih _ k v (fun e he hek => huniq e (List.mem_cons_of_mem kv he) hek)
    unfold QP.forwardStep
    by_cases hf : QP.forwardName kv.1
    · rw [if_pos hf]
      obtain ⟨k1, v1⟩ := kv
      by_cases hk : k1 = k
      · subst hk
        have hv : v1 = v := huniq (k1, v1) (List.mem_cons_self _ _) rfl
        subst hv
        exact spset_mem_self ps0 k1 v1
      · exact spset_keep ps0 k1 v1 (k, v) h0 (fun hh => hk hh.symm)
    · rw [if_neg hf]
      exact h0

theorem foldl_forward_sets :
    ∀ (inbound ps0 : List (Str × Str)) (k v : Str),
      QP.forwardName k = true → (k, v) ∈ inbound →
      (∀ e ∈ inbound, e.1 = k → e.2 = v) →
      (k, v) ∈ inbound.foldl QP.forwardStep ps0 := by
  intro inbound
  induction inbound with
  | nil => intro ps0 k v _ hm _; cases hm
  | cons kv rest ih =>
    intro ps0 k v hf hm huniq
    rw [List.foldl_cons]
    rcases List.mem_cons.mp hm with h | h
    · obtain rfl : kv = (k, v) := h.symm
      apply foldl_forward_keep rest _ k v
        (fun e he hek => huniq e (List.mem_cons_of_mem _ he) hek)
      unfold QP.forwardStep
      rw [if_pos hf]
      exact spset_mem_self ps0 k v
    · exact ih _ k v hf h (fun e he hek => huniq e (List.mem_cons_of_mem _ he) hek)

theorem forwardName_ne_path (k : Str) (h : QP.forwardName k = true) :
    k ≠ ("path".toList) := by
  simp only [QP.forwardName, decide_eq_true_eq] at h
  exact h.1

/-- Claim C7 (amended): the inbound query parameters copied into the
upstream query are exactly those whose name passes the forwarding condition
(member of the explicit allow-list or prefixed by `sort[`; `path` and every
other name is silently dropped, not errored).  However, because the raw
`path` value is concatenated into the URL-constructor string, a question
mark smuggled in the path's third-or-later segment turns its remainder into
initial upstream query parameters: every forwarded parameter either comes
from that path-embedded query or has an allowed name, and only when the
path embeds no query is every forwarded name an allowed one. -/
theorem claim_C7_amended :
    ∀ (req : Request) (tok : Str) (st : QP.RateState) (now : Int) (fr : FetchRes) (p : Str),
      req.method ≠ ("OPTIONS".toList) →
      ¬ (req.method ≠ ("GET".toList) ∧ (req.origin.getD []) ∉ QP.ALLOWED_ORIGINS) →
      (QP.checkRateLimit st (QP.clientIP req) now).1 = true →
      spGet (QP.searchParamsOf req) ("path".toList) = some p →
      QP.validatePath (some p) = .okValid →
      ((QP.outbOf (QP.onRequest req (some tok) st now fr).1).map QP.Outbound.params =
        some ((QP.searchParamsOf req).foldl QP.forwardStep
          (QP.upstreamInitParams (QP.apiBase ++ p)))) ∧
      (∀ e ∈ (QP.searchParamsOf req).foldl QP.forwardStep
          (QP.upstreamInitParams (QP.apiBase ++ p)),
        e ∈ QP.upstreamInitParams (QP.apiBase ++ p) ∨
          (QP.forwardName e.1 = true ∧ e.1 ≠ ("path".toList))) ∧
      (QP.upstreamInitParams (QP.apiBase ++ p) = [] →
        ∀ e ∈ (QP.searchParamsOf req).foldl QP.forwardStep
            (QP.upstreamInitParams (QP.apiBase ++ p)),
          QP.forwardName e.1 = true ∧ e.1 ≠ ("path".toList)) ∧
      (∀ k v, QP.forwardName k = true → (k, v) ∈ QP.searchParamsOf req →
        (∀ e ∈ QP.searchParamsOf req, e.1 = k → e.2 = v) →
        (k, v) ∈ (QP.searchParamsOf req).foldl QP.forwardStep
          (QP.upstreamInitParams (QP.apiBase ++ p))) := by
  intro req tok st now fr p h1 h2 h3 h4 h5
  refine ⟨?_, ?_, ?_, ?_⟩
  · rw [QP_fetch_eval req tok st now fr p h1 h2 h3 h4 h5]
    cases fr <;> rfl
  · intro e he
    rcases foldl_forward_subset _ _ e he with h | h
    · exact Or.inl h
    · exact Or.inr ⟨h, forwardName_ne_path _ h⟩
  · intro h0 e he
    rw [h0] at he
    rcases foldl_forward_subset _ _ e he with h | h
    · cases h
    · exact ⟨h, forwardName_ne_path _ h⟩
  · intro k v hf hm hu
    exact foldl_forward_sets _ _ k v hf hm hu

/-- Witness for C7: on the smuggling request the outbound parameters are
the fold's value, and the allowed inbound `pageSize=5` is among them. -/
theorem claim_C7_witness :
    ((QP.outbOf (QP.onRequest reqSmuggle (some ("tok".toList)) [] 0
        (.ok ⟨200, ("ok".toList)⟩)).1).map QP.Outbound.params =
      some ((QP.searchParamsOf reqSmuggle).foldl QP.forwardStep
        (QP.upstreamInitParams
          (QP.apiBase ++ ("applOjDjhH0RqLtBH/Team Members/rec?evil=1".toList))))) ∧
    (("pageSize".toList, "5".toList) ∈ (QP.searchParamsOf reqSmuggle).foldl QP.forwardStep
      (QP.upstreamInitParams
        (QP.apiBase ++ ("applOjDjhH0RqLtBH/Team Members/rec?evil=1".toList)))) := by
  have h := claim_C7_amended reqSmuggle ("tok".toList) [] 0 (.ok ⟨200, ("ok".toList)⟩)
    ("applOjDjhH0RqLtBH/Team Members/rec?evil=1".toList)
    (by decide) (by decide) (by decide) (by decide) (by decide)
  exact ⟨h.1, h.2.2.2 ("pageSize".toList) ("5".toList) (by decide) (by decide) (by decide)⟩

/-- Counterexample to C7 as stated: for the smuggling request the
parameters reaching the upstream call are `evil=1` (from inside the `path`
value) followed by the copied `pageSize=5` — the name `evil`, which the
forwarding condition rejects, does reach the upstream call. -/
theorem claim_C7_cex :
    ((QP.outbOf (QP.onRequest reqSmuggle (some ("tok".toList)) [] 0
        (.ok ⟨200, ("ok".toList)⟩)).1).map QP.Outbound.params =
      some [(("evil".toList), ("1".toList)), (("pageSize".toList), ("5".toList))]) ∧
    QP.forwardName ("evil".toList) = false :=
  ⟨by decide, by decide⟩

/-! ### Claim C5 — rate-limit and CORS headers on responses -/

theorem hget_of_mem_nodup (l : List (Str × Str)) (k v : Str)
    (hm : (k, v) ∈ l) (hnd : (l.map Prod.fst).Nodup) : hget l k = some v := by
  induction l with
  | nil => cases hm
  | cons q rest ih =>
    obtain ⟨k0, v0⟩ := q
    rw [List.map_cons] at hnd
    rw [hget_cons]
    rcases List.mem_cons.mp hm with h | h
    · cases h
      rw [if_pos rfl]
    · have hne : k0 ≠ k := by
        intro he
        have hmem2 : Prod.fst (k, v) ∈ rest.map Prod.fst := List.mem_map_of_mem Prod.fst h
        rw [← he] at hmem2
        exact (List.nodup_cons.mp hnd).1 hmem2
      rw [if_neg hne]
      exact ih h (List.nodup_cons.mp hnd).2

theorem PS_cors_facts (req : Request) :
    (("Access-Control-Allow-Methods".toList,
       "GET, POST, PATCH, DELETE, OPTIONS".toList) ∈ PS.getCorsHeaders req) ∧
    ((PS.getCorsHeaders req).map Prod.fst).Nodup ∧
    (∀ p ∈ PS.getCorsHeaders req,
      p.1 ≠ hXRLLimit ∧ p.1 ≠ hXRLRemaining ∧ p.1 ≠ hXRLReset ∧ p.1 ≠ hRetryAfter) := by
  rcases ho : req.origin with _ | o <;> simp only [PS.getCorsHeaders, ho]
  · exact ⟨by decide, by decide, by decide⟩
  · by_cases h : o ≠ [] ∧ o ∈ PS.ALLOWED_ORIGINS
    · rw [if_pos h]
      refine ⟨List.mem_append_left _ (by decide), ?_, ?_⟩
      · simp only [List.map_append, List.map_cons, List.map_nil]
        decide
      · intro p hp
        rcases List.mem_append.mp hp with hb | ho2
        · exact (by decide :
            ∀ q ∈ [(("Access-Control-Allow-Methods".toList : Str),
                     "GET, POST, PATCH, DELETE, OPTIONS".toList),
                   ("Access-Control-Allow-Headers".toList,
                     "Content-Type, Authorization, X-Requested-With".toList),
                   ("Access-Control-Max-Age".toList, "86400".toList)],
              q.1 ≠ hXRLLimit ∧ q.1 ≠ hXRLRemaining ∧ q.1 ≠ hXRLReset ∧
                q.1 ≠ hRetryAfter) p hb
        · rcases List.mem_cons.mp ho2 with h2 | h2
          · rw [h2]
            show ("Access-Control-Allow-Origin".toList : Str) ≠ hXRLLimit ∧
              ("Access-Control-Allow-Origin".toList : Str) ≠ hXRLRemaining ∧
              ("Access-Control-Allow-Origin".toList : Str) ≠ hXRLReset ∧
              ("Access-Control-Allow-Origin".toList : Str) ≠ hRetryAfter
            decide
          · rw [List.mem_singleton] at h2
            rw [h2]
            decide
    · rw [if_neg h]
      exact ⟨by decide, by decide, by decide⟩

theorem PS_resp_has_AM (req : Request) (tok : Option Str) (st : PS.RateState)
    (now : Int) (fr : FetchRes) :
    hget (PS.onRequest req tok st now fr).1.headers
      ("Access-Control-Allow-Methods".toList) =
      some ("GET, POST, PATCH, DELETE, OPTIONS".toList) := by
  have hc := PS_cors_facts req
  have hAM : ∀ extras, hget (omerge extras (PS.getCorsHeaders req))
      ("Access-Control-Allow-Methods".toList) =
      some ("GET, POST, PATCH, DELETE, OPTIONS".toList) :=
    fun extras => hget_omerge_mem _ extras _ _ hc.2.1 hc.1
  have hbare : hget (PS.getCorsHeaders req) ("Access-Control-Allow-Methods".toList) =
      some ("GET, POST, PATCH, DELETE, OPTIONS".toList) :=
    hget_of_mem_nodup _ _ _ hc.1 hc.2.1
  simp only [PS.onRequest]
  repeat' split
  all_goals first
    | exact hbare
    | exact hAM _

theorem QP_resp_header_facts (req : Request) (tok : Option Str) (st : QP.RateState)
    (now : Int) (fr : FetchRes) :
    ∀ r : Response, QP.respOf (QP.onRequest req tok st now fr).1 = some r →
      hget r.headers hXRLLimit = none ∧ hget r.headers hXRLRemaining = none ∧
      hget r.headers ("Access-Control-Allow-Methods".toList) =
        some ("GET, POST, PATCH, DELETE, OPTIONS".toList) := by
  intro r h
  simp only [QP.onRequest] at h
  repeat' split at h
  all_goals simp only [QP.respOf, Option.some.injEq] at h
  all_goals first
    | (subst h; exact ⟨rfl, rfl, rfl⟩)
    | exact absurd h (by simp)

/-- Claim C5 (amended): every response of either variant carries the
computed CORS header set (witnessed by the `Access-Control-Allow-Methods`
entry).  Only two responses carry `X-RateLimit` headers, both in the
path-segment variant: its 429 carries `X-RateLimit-Limit`/`-Remaining`/
`-Reset` and a `Retry-After` computed from `resetAt`, and its successful
relay carries `X-RateLimit-Limit`/`-Remaining`.  Other responses lack them:
the path-segment missing-token 500 carries no `X-RateLimit` headers, and
the query-parameter variant never emits any `X-RateLimit` header at all —
its 429 carries only a fixed `Retry-After: 60`. -/
theorem claim_C5_amended :
    (∀ (req : Request) (tok : Option Str) (st : QP.RateState) (now : Int)
        (fr : FetchRes) (r : Response),
      QP.respOf (QP.onRequest req tok st now fr).1 = some r →
      hget r.headers hXRLLimit = none ∧ hget r.headers hXRLRemaining = none ∧
      hget r.headers ("Access-Control-Allow-Methods".toList) =
        some ("GET, POST, PATCH, DELETE, OPTIONS".toList)) ∧
    (∀ (req : Request) (tok : Option Str) (st : QP.RateState) (now : Int) (fr : FetchRes),
      req.method ≠ ("OPTIONS".toList) →
      ¬ (req.method ≠ ("GET".toList) ∧ (req.origin.getD []) ∉ QP.ALLOWED_ORIGINS) →
      (QP.checkRateLimit st (QP.clientIP req) now).1 = false →
      ((QP.respOf (QP.onRequest req tok st now fr).1).map Response.status = some 429 ∧
       (QP.respOf (QP.onRequest req tok st now fr).1).bind
         (fun r => hget r.headers hRetryAfter) = some ("60".toList))) ∧
    (∀ (req : Request) (tok : Option Str) (st : PS.RateState) (now : Int) (fr : FetchRes),
      hget (PS.onRequest req tok st now fr).1.headers
        ("Access-Control-Allow-Methods".toList) =
        some ("GET, POST, PATCH, DELETE, OPTIONS".toList)) ∧
    (∀ (req : Request) (st : PS.RateState) (now : Int) (fr : FetchRes),
      req.method ≠ ("OPTIONS".toList) →
      (PS.onRequest req none st now fr).1.status = 500 ∧
      hget (PS.onRequest req none st now fr).1.headers hXRLLimit = none ∧
      hget (PS.onRequest req none st now fr).1.headers hXRLRemaining = none) ∧
    (∀ (req : Request) (tok : Str) (st : PS.RateState) (now : Int) (fr : FetchRes),
      req.method ≠ ("OPTIONS".toList) →
      (PS.checkRateLimit st (PS.getRateLimitKey req) now).1.allowed = false →
      (PS.onRequest req (some tok) st now fr).1.status = 429 ∧
      hget (PS.onRequest req (some tok) st now fr).1.headers hXRLLimit =
        some (natStr PS.RATE_LIMIT) ∧
      hget (PS.onRequest req (some tok) st now fr).1.headers hXRLRemaining =
        some ("0".toList) ∧
      hget (PS.onRequest req (some tok) st now fr).1.headers hXRLReset =
        some (intStr ((PS.checkRateLimit st (PS.getRateLimitKey req) now).1.resetAt.getD 0)) ∧
      hget (PS.onRequest req (some tok) st now fr).1.headers hRetryAfter =
        some (intStr (jsCeilDiv
          (((PS.checkRateLimit st (PS.getRateLimitKey req) now).1.resetAt.getD 0) - now)
          1000))) ∧
    (∀ (req : Request) (tok : Str) (st : PS.RateState) (now : Int) (u : Upstream)
        (ap b t : Str) (rid : Option Str) (bj : Option Json) (d : Json),
      req.method ≠ ("OPTIONS".toList) →
      (PS.checkRateLimit st (PS.getRateLimitKey req) now).1.allowed = true →
      PS.pathMatch req.pathname = some ap →
      PS.validatePath ap = .ok b t rid →
      bodyRoute req = some bj →
      jsonParse u.body = some d →
      (PS.onRequest req (some tok) st now (.ok u)).1.status = u.status ∧
      hget (PS.onRequest req (some tok) st now (.ok u)).1.headers hXRLLimit =
        some (natStr PS.RATE_LIMIT) ∧
      hget (PS.onRequest req (some tok) st now (.ok u)).1.headers hXRLRemaining =
        some (intStr ((PS.checkRateLimit st (PS.getRateLimitKey req) now).1.remaining))) := by
  refine ⟨QP_resp_header_facts, ?_, PS_resp_has_AM, ?_, ?_, ?_⟩
  · intro req tok st now fr h1 h2 hflag
    simp only [QP.onRequest]
    rw [if_neg h1, if_neg h2, if_neg (by simp [hflag])]
    exact ⟨rfl, rfl⟩
  · intro req st now fr h1
    have hc := PS_cors_facts req
    simp only [PS.onRequest]
    rw [if_neg h1]
    refine ⟨rfl, ?_, ?_⟩
    · rw [hget_omerge_skip _ _ _ (fun p hp => (hc.2.2 p hp).1)]
      rfl
    · rw [hget_omerge_skip _ _ _ (fun p hp => (hc.2.2 p hp).2.1)]
      rfl
  · intro req tok st now fr h1 hflag
    have hc := PS_cors_facts req
    simp only [PS.onRequest]
    rw [if_neg h1, if_neg (by simp [hflag])]
    refine ⟨rfl, ?_, ?_, ?_, ?_⟩
    · rw [hget_omerge_skip _ _ _ (fun p hp => (hc.2.2 p hp).1)]
      rfl
    · rw [hget_omerge_skip _ _ _ (fun p hp => (hc.2.2 p hp).2.1)]
      rfl
    · rw [hget_omerge_skip _ _ _ (fun p hp => (hc.2.2 p hp).2.2.1)]
      rfl
    · rw [hget_omerge_skip _ _ _ (fun p hp => (hc.2.2 p hp).2.2.2)]
      rfl
  · intro req tok st now u ap b t rid bj d h1 h3 h4 h5 h6 hparse
    have hc := PS_cors_facts req
    rw [PS_fetch_eval req tok st now (.ok u) ap b t rid bj h1 h3 h4 h5 h6]
    simp only [hparse]
    refine ⟨trivial, ?_, ?_⟩
    · rw [hget_omerge_skip _ _ _ (fun p hp => (hc.2.2 p hp).1)]
      rfl
    · rw [hget_omerge_skip _ _ _ (fun p hp => (hc.2.2 p hp).2.1)]
      rfl

/-- Witness for C5 at concrete requests: the path-segment missing-token
500 without rate headers, the path-segment 429 with all four rate headers,
and the query-parameter 429 with only `Retry-After: 60`. -/
theorem claim_C5_witness :
    ((PS.onRequest reqPSClients none [] 5 (.error [])).1.status = 500 ∧
      hget (PS.onRequest reqPSClients none [] 5 (.error [])).1.headers hXRLLimit = none ∧
      hget (PS.onRequest reqPSClients none [] 5 (.error [])).1.headers hXRLRemaining =
        none) ∧
    ((PS.onRequest reqPSClients (some ("t".toList)) stFull 60000 (.error [])).1.status =
        429 ∧
      hget (PS.onRequest reqPSClients (some ("t".toList)) stFull 60000
          (.error [])).1.headers hXRLLimit = some (natStr PS.RATE_LIMIT) ∧
      hget (PS.onRequest reqPSClients (some ("t".toList)) stFull 60000
          (.error [])).1.headers hXRLRemaining = some ("0".toList) ∧
      hget (PS.onRequest reqPSClients (some ("t".toList)) stFull 60000
          (.error [])).1.headers hXRLReset =
        some (intStr ((PS.checkRateLimit stFull (PS.getRateLimitKey reqPSClients)
          60000).1.resetAt.getD 0)) ∧
      hget (PS.onRequest reqPSClients (some ("t".toList)) stFull 60000
          (.error [])).1.headers hRetryAfter =
        some (intStr (jsCeilDiv
          (((PS.checkRateLimit stFull (PS.getRateLimitKey reqPSClients)
            60000).1.resetAt.getD 0) - 60000) 1000))) ∧
    ((QP.respOf (QP.onRequest reqC2 none [(("9.9.9.9".toList), ⟨0, 1000⟩)] 5
        (.error [])).1).map Response.status = some 429 ∧
      (QP.respOf (QP.onRequest reqC2 none [(("9.9.9.9".toList), ⟨0, 1000⟩)] 5
        (.error [])).1).bind (fun r => hget r.headers hRetryAfter) =
        some ("60".toList)) := by
  refine ⟨?_, ?_, ?_⟩
  · exact claim_C5_amended.2.2.2.1 reqPSClients [] 5 (.error []) (by decide)
  · exact claim_C5_amended.2.2.2.2.1 reqPSClients ("t".toList) stFull 60000 (.error [])
      (by decide) (by decide)
  · exact claim_C5_amended.2.1 reqC2 none [(("9.9.9.9".toList), ⟨0, 1000⟩)] 5
      (.error []) (by decide) (by decide) (by decide)

/-- Counterexample to C5 as stated: a non-preflight 500 of the
path-segment variant carries no `X-RateLimit-Limit`, and even a successful
relay of the query-parameter variant carries no `X-RateLimit-Limit` — so
non-preflight responses do not always carry the rate headers, in either
variant. -/
theorem claim_C5_cex :
    (PS.onRequest reqPSClients none [] 5 (.error [])).1.status = 500 ∧
    hget (PS.onRequest reqPSClients none [] 5 (.error [])).1.headers hXRLLimit = none ∧
    (QP.respOf (QP.onRequest reqQPTeam (some ("tok".toList)) [] 0
        (.ok ⟨200, ("ok".toList)⟩)).1).map Response.status = some 200 ∧
    (QP.respOf (QP.onRequest reqQPTeam (some ("tok".toList)) [] 0
        (.ok ⟨200, ("ok".toList)⟩)).1).bind (fun r => hget r.headers hXRLLimit) =
      none :=
  ⟨by decide, by decide, by decide, by decide⟩
